import Mathlib

/-!
Verification development for the Madara chat bot (src/main.py).

The embedding models, faithfully to the source:
  * the regex-based intent classifiers `extract_remember_intent`, `wants_forget`
    (Python `re` semantics: leftmost match, greedy quantifiers with
    backtracking, case-insensitive literals, `\b` word boundaries, `$`),
    via a list-of-successes backtracking matcher;
  * the wake-word test `is_madara_call`;
  * the SQLite-backed memory table (`mem_set` / `mem_get_all` / `mem_del`)
    and group-settings table (`group_get_mode` / `group_set_mode`);
  * the membership gate `must_join_guard` (membership query outcome passed
    in as a parameter: `some status`, or `none` for a raised exception);
  * the reply generator `ai_reply` (LLM output passed in as a parameter);
  * the handlers `on_message` and `mode_cmd` as pure functions from an
    update and the stores to the new stores plus the list of sent messages
    (`err` records a would-be `AttributeError` on a `None` attribute access).

Character classes are the ASCII parts of Python's `\s` / `\w`; all texts in
the claims are ASCII, where Python's Unicode-aware classes coincide.
-/

namespace MadaraBot

/-! ### Character classes and basic text utilities -/

/-- ASCII portion of Python's `\s` class: space, tab, newline, CR, VT, FF. -/
def wsClass (c : Char) : Bool :=
  c = ' ' || c = '\t' || c = '\n' || c = '\r' || c = '\x0b' || c = '\x0c'

/-- ASCII portion of Python's `\w` class (word characters). -/
def wordClass (c : Char) : Bool :=
  c.isAlpha || c.isDigit || c = '_'

/-- The key character class `[A-Za-z0-9_-]` used by all key captures. -/
def keyClass (c : Char) : Bool :=
  c.isAlpha || c.isDigit || c = '_' || c = '-'

/-- Python's `.` (without `re.DOTALL`): any character except a newline. -/
def dotClass (c : Char) : Bool :=
  c != '\n'

/-- Lowercasing of a character list (Python `str.lower`, ASCII range). -/
def lowerL (l : List Char) : List Char :=
  l.map Char.toLower

/-- Python `str.strip()` on a character list. -/
def pstrip (l : List Char) : List Char :=
  ((l.dropWhile wsClass).reverse.dropWhile wsClass).reverse

/-- Python `str.strip()` on a string. -/
def pstripS (s : String) : String :=
  String.mk (pstrip s.data)

/-- Python `str.lower()` on a string. -/
def lowerS (s : String) : String :=
  String.mk (lowerL s.data)

/-- Does `hay` start with `needle`? -/
def startsWithL : List Char → List Char → Bool
  | _, [] => true
  | [], _ :: _ => false
  | c :: cs, n :: ns => c = n && startsWithL cs ns

/-- Does `hay` contain `needle` as a (contiguous) substring?  Models
Python's `in` operator on strings. -/
def containsL : List Char → List Char → Bool
  | hay, needle =>
    match hay with
    | [] => startsWithL [] needle
    | _ :: cs => startsWithL hay needle || containsL cs needle

/-- Python `str.split()` (no argument): split on whitespace runs,
discarding empty fields.  `acc` is the current word, reversed. -/
def pysplitAux : List Char → List Char → List (List Char)
  | [], acc => if acc.isEmpty then [] else [acc.reverse]
  | c :: cs, acc =>
    if wsClass c then
      if acc.isEmpty then pysplitAux cs [] else acc.reverse :: pysplitAux cs []
    else
      pysplitAux cs (c :: acc)

/-- Python `str.split()` on a string, as strings. -/
def pysplitS (s : String) : List String :=
  (pysplitAux s.data []).map String.mk

/-! ### A backtracking regex matcher (list of successes)

A matcher step takes a state (previous character, for `\b`, and the rest of
the input) to the list of possible outcomes in backtracking priority order.
The head of the final list is exactly the match Python's `re` engine finds
at that position. -/

/-- Matcher state: the character just before the current position (for
word boundaries) and the remaining input. -/
structure St where
  prev : Option Char
  rest : List Char
deriving DecidableEq

/-- The list-of-successes matcher monad. -/
def M (α : Type) : Type := St → List (α × St)

/-- Succeed with `a`, consuming nothing. -/
def mret {α : Type} (a : α) : M α := fun st => [(a, st)]

/-- Sequencing; outcome lists are explored in priority order. -/
def mbind {α β : Type} (m : M α) (f : α → M β) : M β :=
  fun st => (m st).flatMap (fun p => f p.1 p.2)

/-- Match one character of class `p`. -/
def mChar (p : Char → Bool) : M Char := fun st =>
  match st.rest with
  | [] => []
  | c :: cs => if p c then [(c, ⟨some c, cs⟩)] else []

/-- Case-insensitive literal (the literal is given in lowercase). -/
def mLitCI : List Char → M Unit
  | [] => mret ()
  | l :: ls => fun st =>
    match st.rest with
    | [] => []
    | c :: cs => if c.toLower = l then mLitCI ls ⟨some c, cs⟩ else []

/-- Is an optional character a word character (`\b` helper)? -/
def isWordOpt : Option Char → Bool
  | none => false
  | some c => wordClass c

/-- Word boundary `\b`: consumes nothing; succeeds when exactly one of the
neighbouring characters is a word character. -/
def mWb : M Unit := fun st =>
  if isWordOpt st.prev != isWordOpt st.rest.head? then [((), st)] else []

/-- `$` (without `re.MULTILINE`): end of input, or just before a final
newline.  Consumes nothing. -/
def mEos : M Unit := fun st =>
  if st.rest = [] ∨ st.rest = ['\n'] then [((), st)] else []

/-- Greedy bounded repetition of a character class, capturing the consumed
characters.  Outcomes are ordered longest-first, exactly the exploration
order of a greedy quantifier. -/
def mRepGreedy (p : Char → Bool) (min : Nat) : Nat → M (List Char)
  | 0 => fun st => if min = 0 then [([], st)] else []
  | max + 1 => fun st =>
    match st.rest with
    | [] => if min = 0 then [([], st)] else []
    | c :: cs =>
      if p c then
        ((mRepGreedy p (min - 1) max ⟨some c, cs⟩).map
          (fun q => (c :: q.1, q.2))) ++
        (if min = 0 then [([], st)] else [])
      else
        if min = 0 then [([], st)] else []

/-- `p*` (greedy): unbounded maximum, realized as the remaining length. -/
def mStar (p : Char → Bool) : M (List Char) := fun st =>
  mRepGreedy p 0 st.rest.length st

/-- `p+` (greedy). -/
def mPlus (p : Char → Bool) : M (List Char) := fun st =>
  mRepGreedy p 1 st.rest.length st

/-- Ordered alternation `a|b`. -/
def mAlt {α : Type} (a b : M α) : M α := fun st => a st ++ b st

/-- Greedy option `(?:...)?`: try matching first, then the empty match. -/
def mOpt (m : M Unit) : M Unit := fun st => m st ++ [((), st)]

/-- First full match of `m` at the current position, in priority order. -/
def firstMatch {α : Type} (m : M α) (st : St) : Option α :=
  ((m st).head?).map Prod.fst

/-- `re.search`: try each start position from the left; at each position
take the backtracking-first match. -/
def searchM {α : Type} (m : M α) : Option Char → List Char → Option α
  | prev, [] => firstMatch m ⟨prev, []⟩
  | prev, c :: cs =>
    match firstMatch m ⟨prev, c :: cs⟩ with
    | some a => some a
    | none => searchM m (some c) cs

/-! ### The five regex patterns of `main.py` -/

/-- Pattern `^/remember\s+([A-Za-z0-9_\-]{1,32})\s*=\s*(.{1,200})$`
(`re.match`, `re.I`), applied to the stripped text. -/
def pat1 : M (List Char × List Char) :=
  mbind (mLitCI "/remember".data) fun _ =>
  mbind (mPlus wsClass) fun _ =>
  mbind (mRepGreedy keyClass 1 32) fun k =>
  mbind (mStar wsClass) fun _ =>
  mbind (mChar (fun c => c = '=')) fun _ =>
  mbind (mStar wsClass) fun _ =>
  mbind (mRepGreedy dotClass 1 200) fun v =>
  mbind mEos fun _ =>
  mret (k, v)

/-- Pattern `\bremember\b\s+(?:that\s+)?my\s+([a-zA-Z0-9_\-]{1,32})\s+(?:is|=)\s+(.{1,200})`
(`re.search`, `re.I`). -/
def pat2core : M (List Char × List Char) :=
  mbind mWb fun _ =>
  mbind (mLitCI "remember".data) fun _ =>
  mbind mWb fun _ =>
  mbind (mPlus wsClass) fun _ =>
  mbind (mOpt (mbind (mLitCI "that".data) fun _ =>
               mbind (mPlus wsClass) fun _ => mret ())) fun _ =>
  mbind (mLitCI "my".data) fun _ =>
  mbind (mPlus wsClass) fun _ =>
  mbind (mRepGreedy keyClass 1 32) fun k =>
  mbind (mPlus wsClass) fun _ =>
  mbind (mAlt (mLitCI "is".data) (mLitCI "=".data)) fun _ =>
  mbind (mPlus wsClass) fun _ =>
  mbind (mRepGreedy dotClass 1 200) fun v =>
  mret (k, v)

/-- Pattern `\bremember\b\s+([a-zA-Z0-9_\-]{1,32})\s*[:=]\s*(.{1,200})`
(`re.search`, `re.I`). -/
def pat3core : M (List Char × List Char) :=
  mbind mWb fun _ =>
  mbind (mLitCI "remember".data) fun _ =>
  mbind mWb fun _ =>
  mbind (mPlus wsClass) fun _ =>
  mbind (mRepGreedy keyClass 1 32) fun k =>
  mbind (mStar wsClass) fun _ =>
  mbind (mChar (fun c => c = ':' || c = '=')) fun _ =>
  mbind (mStar wsClass) fun _ =>
  mbind (mRepGreedy dotClass 1 200) fun v =>
  mret (k, v)

/-- Pattern `^/forget\s+([A-Za-z0-9_\-]{1,32})$` (`re.match`, `re.I`),
applied to the stripped text. -/
def fpat1 : M (List Char) :=
  mbind (mLitCI "/forget".data) fun _ =>
  mbind (mPlus wsClass) fun _ =>
  mbind (mRepGreedy keyClass 1 32) fun k =>
  mbind mEos fun _ =>
  mret k

/-- Pattern `\bforget\b\s+my\s+([A-Za-z0-9_\-]{1,32})\b` (`re.search`, `re.I`). -/
def fpat2core : M (List Char) :=
  mbind mWb fun _ =>
  mbind (mLitCI "forget".data) fun _ =>
  mbind mWb fun _ =>
  mbind (mPlus wsClass) fun _ =>
  mbind (mLitCI "my".data) fun _ =>
  mbind (mPlus wsClass) fun _ =>
  mbind (mRepGreedy keyClass 1 32) fun k =>
  mbind mWb fun _ =>
  mret k

/-- Raw result of the first remember pattern (on the stripped text). -/
def match1 (t : List Char) : Option (List Char × List Char) :=
  firstMatch pat1 ⟨none, pstrip t⟩

/-- Raw result of the second remember pattern (searched over the raw text). -/
def match2 (t : List Char) : Option (List Char × List Char) :=
  searchM pat2core none t

/-- Raw result of the third remember pattern (searched over the raw text). -/
def match3 (t : List Char) : Option (List Char × List Char) :=
  searchM pat3core none t

/-- Post-processing applied by each `return` of the source:
`(m.group(1).lower(), m.group(2).strip())`. -/
def postKV (r : List Char × List Char) : String × String :=
  (String.mk (lowerL r.1), String.mk (pstrip r.2))

/-- `extract_remember_intent` from `main.py`: the three patterns tried in
order, first match wins; returns `(key.lower(), value.strip())`. -/
def extract_remember_intent (text : String) : Option (String × String) :=
  if text = "" then none
  else
    match match1 text.data with
    | some r => some (postKV r)
    | none =>
      match match2 text.data with
      | some r => some (postKV r)
      | none =>
        match match3 text.data with
        | some r => some (postKV r)
        | none => none

/-- `wants_forget` from `main.py`: the command form on the stripped text,
then the natural-language form searched over the raw text. -/
def wants_forget (text : String) : Option String :=
  if text = "" then none
  else
    match firstMatch fpat1 ⟨none, pstrip text.data⟩ with
    | some k => some (String.mk (lowerL k))
    | none =>
      match searchM fpat2core none text.data with
      | some k => some (String.mk (lowerL k))
      | none => none

/-- `is_madara_call` from `main.py`: the lowercased text contains
`"madara"` or `"@madara"` as a substring. -/
def is_madara_call (text : String) : Bool :=
  if text = "" then false
  else
    containsL (lowerL text.data) "madara".data ||
    containsL (lowerL text.data) "@madara".data

/-! ### The SQLite tables

`memory(user_id, k, v, updated_at)` with `PRIMARY KEY (user_id, k)`, and
`group_settings(chat_id, mode)` with `chat_id` as primary key.  A table is
a list of rows in insertion order; the upsert updates the conflicting row
in place, as `ON CONFLICT ... DO UPDATE` does. -/

/-- A row of the `memory` table. -/
structure MemRow where
  user_id : Int
  k : String
  v : String
  updated_at : Int
deriving DecidableEq

/-- The `memory` table. -/
abbrev MemStore := List MemRow

/-- Does a row belong to `(user_id, k)`? -/
def memMatch (u : Int) (key : String) (r : MemRow) : Bool :=
  r.user_id = u && r.k = key

/-- `mem_set`: `INSERT ... ON CONFLICT(user_id,k) DO UPDATE SET v, updated_at`.
`now` is the value of `strftime('%s','now')`. -/
def mem_set (s : MemStore) (now : Int) (u : Int) (key v : String) : MemStore :=
  if s.any (memMatch u key) then
    s.map (fun r => if memMatch u key r then ⟨r.user_id, r.k, v, now⟩ else r)
  else
    s ++ [⟨u, key, v, now⟩]

/-- `mem_get_all`: `SELECT k,v FROM memory WHERE user_id=?`, as the list of
`(k, v)` pairs in row order (the Python code then builds a dict from it). -/
def mem_get_all (s : MemStore) (u : Int) : List (String × String) :=
  (s.filter (fun r => r.user_id = u)).map (fun r => (r.k, r.v))

/-- Lookup in the dict Python builds from the `(k, v)` pairs: a later pair
with the same key overwrites an earlier one. -/
def dictGet : List (String × String) → String → Option String
  | [], _ => none
  | p :: l, key =>
    match dictGet l key with
    | some v => some v
    | none => if p.1 = key then some p.2 else none

/-- `mem_del`: `DELETE FROM memory WHERE user_id=? AND k=?`; the Boolean is
`cur.rowcount > 0` (was any row deleted?). -/
def mem_del (s : MemStore) (u : Int) (key : String) : MemStore × Bool :=
  (s.filter (fun r => !(memMatch u key r)), s.any (memMatch u key))

/-- The `group_settings` table. -/
abbrev GSStore := List (Int × String)

/-- `group_get_mode`: the stored mode for the chat, defaulting to
`"mention"` when no row exists. -/
def group_get_mode (g : GSStore) (chat_id : Int) : String :=
  match g.find? (fun p => p.1 = chat_id) with
  | some p => p.2
  | none => "mention"

/-- `group_set_mode`: upsert on `chat_id`. -/
def group_set_mode (g : GSStore) (chat_id : Int) (mode : String) : GSStore :=
  if g.any (fun p => p.1 = chat_id) then
    g.map (fun p => if p.1 = chat_id then (p.1, mode) else p)
  else
    g ++ [(chat_id, mode)]

/-! ### Telegram update objects (the fields the handlers read) -/

/-- `update.effective_chat.type`. -/
inductive ChatTy
  | private_
  | group
  | supergroup
  | channel
deriving DecidableEq

/-- A Telegram user (`id`, `is_bot`). -/
structure TUser where
  id : Int
  is_bot : Bool
deriving DecidableEq

/-- The message being replied to (only its sender is read). -/
structure RMsg where
  from_user : Option TUser
deriving DecidableEq

/-- An inbound message (only `text` and `reply_to_message` are read). -/
structure Msg where
  text : Option String
  reply_to_message : Option RMsg
deriving DecidableEq

/-- `update.effective_chat`. -/
structure Chat where
  id : Int
  type : ChatTy
deriving DecidableEq

/-- An inbound update. -/
structure Upd where
  message : Option Msg
  callback_query : Option Msg
  effective_chat : Chat
  effective_user : Option TUser
deriving DecidableEq

/-- Is the chat a group or supergroup? -/
def isGroupChat (u : Upd) : Bool :=
  u.effective_chat.type = ChatTy.group || u.effective_chat.type = ChatTy.supergroup

/-- `update.message.reply_to_message is not None and ... .from_user is not
None and ... .from_user.is_bot`. -/
def repliedToBot (m : Msg) : Bool :=
  match m.reply_to_message with
  | none => false
  | some r =>
    match r.from_user with
    | none => false
    | some fu => fu.is_bot

/-! ### The membership gate -/

/-- The fixed denial message of `must_join_guard`. -/
def mustJoinDenial : String :=
  "🚨 <b>MUST JOIN OUR CHANNEL</b>\nJoin first, then message me again."

/-- `member.status in ("member", "administrator", "creator")`, where
`none` stands for `get_chat_member` having raised (the `except` branch,
which falls through to the denial). -/
def statusOk : Option String → Bool
  | some st => st = "member" || st = "administrator" || st = "creator"
  | none => false

/-- `must_join_guard`.  `requiredChannel` is the `REQUIRED_CHANNEL` value
(`""` when unset); `q` is the outcome of `get_chat_member`: `some status`,
or `none` when the call raised.  Returns (allowed, messages sent). -/
def must_join_guard (requiredChannel : String) (upd : Upd) (q : Option String) :
    Bool × List String :=
  if requiredChannel = "" then (true, [])
  else
    match upd.effective_user with
    | none => (true, [])
    | some _ =>
      if statusOk q then (true, [])
      else
        (false,
          if upd.message.isSome then [mustJoinDenial]
          else if upd.callback_query.isSome then [mustJoinDenial]
          else [])

/-! ### The reply generator -/

/-- The hard-coded fallback replies used when no OpenAI key is configured. -/
def spicy : List String :=
  ["Haan bhai 😈 bol kya scene hai?",
   "Arre wah! Tum toh full vibe me ho.",
   "Main Madara mode me aa gaya… bata kya chahiye?",
   "Kya bakchodi chal rahi hai idhar? 😼"]

/-- `ai_reply`.  `hasKey` is whether an OpenAI key (and client) is
available, `h` models `hash(user_text)` (Python's hash is process-seeded),
`llmOut` is the text extracted from the LLM response.  `memory` is the
user's memory dict as ordered `(k, v)` pairs.  The `user_text` argument is
carried for fidelity; the fallback uses it only through `hash`, i.e. `h`. -/
def ai_reply (hasKey : Bool) (h : Nat) (llmOut : String) (user_text : String)
    (memory : List (String × String)) : String :=
  if hasKey then
    let out := pstripS llmOut
    if out = "" then "Hm. Say that again, but clearly 😈" else out
  else
    let base := spicy.getD (h % 4) ""
    if !memory.isEmpty then
      base ++ "\n\n(PS: I remember: " ++
        String.intercalate ", " ((memory.map Prod.fst).take 5) ++ ")"
    else base

/-! ### The message handler -/

/-- Result of a handler: messages sent, the memory table afterwards, and
whether an unhandled exception (`AttributeError` on a `None` access) was
raised. -/
structure OnMsgResult where
  sent : List String
  mem : MemStore
  err : Bool
deriving DecidableEq

/-- `on_message`.  Parameters beyond the stores and update: the gate
configuration and membership-query outcome, the reply-generator inputs,
and `now` for the row timestamp. -/
def on_message (requiredChannel : String) (q : Option String)
    (hasKey : Bool) (h : Nat) (llmOut : String)
    (mem0 : MemStore) (gs : GSStore) (now : Int) (upd : Upd) : OnMsgResult :=
  match upd.message with
  | none => ⟨[], mem0, false⟩
  | some msg =>
    match msg.text with
    | none => ⟨[], mem0, false⟩
    | some rawText =>
      let g := must_join_guard requiredChannel upd q
      if !g.1 then ⟨g.2, mem0, false⟩
      else
        let text := pstripS rawText
        match extract_remember_intent text with
        | some kv =>
          match upd.effective_user with
          | none => ⟨g.2, mem0, true⟩
          | some u =>
            ⟨g.2 ++ ["Saved 😈 I’ll remember: " ++ kv.1 ++ " = " ++ kv.2],
             mem_set mem0 now u.id kv.1 kv.2, false⟩
        | none =>
          match wants_forget text with
          | some fk =>
            match upd.effective_user with
            | none => ⟨g.2, mem0, true⟩
            | some u =>
              let d := mem_del mem0 u.id fk
              ⟨g.2 ++ [if d.2 then "Deleted ✅" else "I didn’t have that saved 😼"],
               d.1, false⟩
          | none =>
            let suppress : Bool :=
              isGroupChat upd &&
              group_get_mode gs upd.effective_chat.id = "mention" &&
              !(is_madara_call text || repliedToBot msg)
            if suppress then ⟨g.2, mem0, false⟩
            else
              match upd.effective_user with
              | none => ⟨g.2, mem0, true⟩
              | some u =>
                ⟨g.2 ++ [ai_reply hasKey h llmOut text (mem_get_all mem0 u.id)],
                 mem0, false⟩

/-! ### The `/mode` command -/

/-- Result of `mode_cmd`: the settings table afterwards, messages sent,
and the exception flag. -/
structure ModeOut where
  gs : GSStore
  sent : List String
  err : Bool
deriving DecidableEq

/-- `mode_cmd`.  `ownerId` is `OWNER_ID` (`0` when unset; the owner check
is `if OWNER_ID and user.id != OWNER_ID`, short-circuiting so that an
unset owner skips the check). -/
def mode_cmd (ownerId : Int) (gs : GSStore) (upd : Upd) : ModeOut :=
  match upd.message with
  | none => ⟨gs, [], true⟩
  | some msg =>
    if !isGroupChat upd then
      ⟨gs, ["This command is for groups only."], false⟩
    else
      let ownerBlocked : Option Bool :=
        if ownerId = 0 then some false
        else
          match upd.effective_user with
          | none => none
          | some u => some (u.id != ownerId)
      match ownerBlocked with
      | none => ⟨gs, [], true⟩
      | some true => ⟨gs, ["Only owner can change group mode 😈"], false⟩
      | some false =>
        let parts := pysplitS (msg.text.getD "")
        let arg := parts.getD 1 ""
        if parts.length < 2 || !(arg = "mention" || arg = "always") then
          ⟨gs, ["Usage: /mode mention  OR  /mode always"], false⟩
        else
          ⟨group_set_mode gs upd.effective_chat.id arg,
           ["Group mode set to: " ++ arg ++ " ✅"], false⟩

/-! ## Character-level facts -/

lemma uint32_toNat_le (a b : UInt32) (h : a ≤ b) : a.toNat ≤ b.toNat := h

lemma char_eq_of_toNat {c d : Char} (h : c.toNat = d.toNat) : c = d :=
  Char.ext (UInt32.toNat.inj h)

lemma toNat_lt_128_of_keyClass {c : Char} (h : keyClass c = true) : c.toNat < 128 := by
  simp only [keyClass, Char.isAlpha, Char.isUpper, Char.isLower, Char.isDigit,
    Bool.or_eq_true, Bool.and_eq_true, decide_eq_true_eq] at h
  rcases h with (((h | h) | h) | h) | h
  · have h2 : c.val.toNat ≤ (90 : UInt32).toNat := uint32_toNat_le _ _ h.2
    have h3 : (90 : UInt32).toNat = 90 := rfl
    show c.val.toNat < 128
    omega
  · have h2 : c.val.toNat ≤ (122 : UInt32).toNat := uint32_toNat_le _ _ h.2
    have h3 : (122 : UInt32).toNat = 122 := rfl
    show c.val.toNat < 128
    omega
  · have h2 : c.val.toNat ≤ (57 : UInt32).toNat := uint32_toNat_le _ _ h.2
    have h3 : (57 : UInt32).toNat = 57 := rfl
    show c.val.toNat < 128
    omega
  · subst h; decide
  · subst h; decide

lemma ascii_key_facts : ∀ n : Nat, n < 128 →
    keyClass (Char.ofNat n) = true →
      keyClass ((Char.ofNat n).toLower) = true ∧
      ((Char.ofNat n).toLower).toLower = (Char.ofNat n).toLower ∧
      wsClass (Char.ofNat n) = false := by decide

lemma keyClass_toLower {c : Char} (h : keyClass c = true) :
    keyClass c.toLower = true ∧ c.toLower.toLower = c.toLower ∧ wsClass c = false := by
  have hb := toNat_lt_128_of_keyClass h
  have := ascii_key_facts c.toNat hb
  rw [Char.ofNat_toNat] at this
  exact this h

lemma wsClass_cases {c : Char} (h : wsClass c = true) :
    c = ' ' ∨ c = '\t' ∨ c = '\n' ∨ c = '\r' ∨ c = '\x0b' ∨ c = '\x0c' := by
  simp only [wsClass, Bool.or_eq_true, decide_eq_true_eq] at h
  tauto

lemma ws_not_word {c : Char} (h : wsClass c = true) : wordClass c = false := by
  rcases wsClass_cases h with h | h | h | h | h | h <;> subst h <;> decide

lemma ws_toLower {c : Char} (h : wsClass c = true) : c.toLower = c := by
  rcases wsClass_cases h with h | h | h | h | h | h <;> subst h <;> decide

lemma keyClass_not_ws {c : Char} (h : keyClass c = true) : wsClass c = false :=
  (keyClass_toLower h).2.2

/-! ## The membership gate: claims C1 and C10 -/

lemma guard_cases (rc : String) (upd : Upd) (q : Option String) :
    must_join_guard rc upd q = (true, []) ∨ (must_join_guard rc upd q).1 = false := by
  unfold must_join_guard
  split
  · exact Or.inl rfl
  · split
    · exact Or.inl rfl
    · split
      · exact Or.inl rfl
      · exact Or.inr rfl

lemma guard_allowed_sent_nil {rc : String} {upd : Upd} {q : Option String}
    (h : (must_join_guard rc upd q).1 = true) : (must_join_guard rc upd q).2 = [] := by
  rcases guard_cases rc upd q with heq | hf
  · rw [heq]
  · rw [hf] at h; exact absurd h (by simp)

/-- C1: with no gating channel configured the gate allows every update;
with a channel configured (and an effective sender present) it allows
exactly the statuses member, administrator and creator — any other
status, and a failed membership query (`q = none`), is denied — and every
denial of a message update sends the fixed denial text (fail closed). -/
theorem c1_gate_fail_closed :
    (∀ (upd : Upd) (q : Option String), must_join_guard "" upd q = (true, [])) ∧
    (∀ (ch : String) (upd : Upd) (u : TUser) (q : Option String),
      ch ≠ "" → upd.effective_user = some u →
      (((must_join_guard ch upd q).1 = true) ↔
        (q = some "member" ∨ q = some "administrator" ∨ q = some "creator"))) ∧
    (∀ (ch : String) (upd : Upd) (u : TUser) (q : Option String),
      ch ≠ "" → upd.effective_user = some u → upd.message.isSome = true →
      (must_join_guard ch upd q).1 = false →
      (must_join_guard ch upd q).2 = [mustJoinDenial]) := by
  refine ⟨?_, ?_, ?_⟩
  · intro upd q
    simp [must_join_guard]
  · intro ch upd u q hch hu
    simp only [must_join_guard, if_neg hch, hu]
    by_cases hok : statusOk q = true
    · rw [if_pos hok]
      simp only [true_iff]
      cases q with
      | none => exact absurd hok (by simp [statusOk])
      | some st =>
        simp only [statusOk, Bool.or_eq_true, decide_eq_true_eq] at hok
        simp only [Option.some.injEq]
        tauto
    · rw [if_neg hok]
      simp only [Bool.false_eq_true, false_iff]
      intro hor
      apply hok
      rcases hor with h1 | h1 | h1 <;> subst h1 <;> simp [statusOk]
  · intro ch upd u q hch hu hmsg hden
    simp only [must_join_guard, if_neg hch, hu] at hden ⊢
    by_cases hok : statusOk q = true
    · rw [if_pos hok] at hden
      exact absurd hden (by simp)
    · rw [if_neg hok]
      simp [hmsg]

/-- C1 witness: concrete evaluations of the three parts. -/
theorem c1_gate_fail_closed_witness :
    must_join_guard "" ⟨some ⟨some "hi", none⟩, none, ⟨5, ChatTy.private_⟩, some ⟨7, false⟩⟩
      (some "kicked") = (true, []) ∧
    ((must_join_guard "@c" ⟨some ⟨some "hi", none⟩, none, ⟨5, ChatTy.private_⟩, some ⟨7, false⟩⟩
      (some "member")).1 = true) ∧
    ((must_join_guard "@c" ⟨some ⟨some "hi", none⟩, none, ⟨5, ChatTy.private_⟩, some ⟨7, false⟩⟩
      none).2 = [mustJoinDenial]) := by
  refine ⟨c1_gate_fail_closed.1 _ _, ?_, ?_⟩
  · exact (c1_gate_fail_closed.2.1 "@c" _ ⟨7, false⟩ _ (by decide) rfl).mpr (Or.inl rfl)
  · exact c1_gate_fail_closed.2.2 "@c" _ ⟨7, false⟩ none (by decide) rfl rfl (by decide)

/-- C10: with a channel configured but no effective sender on the update,
the gate allows, independently of the membership-query outcome (so no
query result is consulted), and sends nothing. -/
theorem c10_no_sender_allows :
    ∀ (ch : String) (upd : Upd) (q : Option String),
      ch ≠ "" → upd.effective_user = none →
      must_join_guard ch upd q = (true, []) := by
  intro ch upd q hch hu
  simp [must_join_guard, if_neg hch, hu]

/-- C10 witness: a senderless update with a configured channel, under both
a failing and a succeeding membership query. -/
theorem c10_no_sender_allows_witness :
    must_join_guard "@c" ⟨some ⟨some "hi", none⟩, none, ⟨5, ChatTy.group⟩, none⟩ none
      = (true, []) ∧
    must_join_guard "@c" ⟨some ⟨some "hi", none⟩, none, ⟨5, ChatTy.group⟩, none⟩ (some "left")
      = (true, []) := by
  exact ⟨c10_no_sender_allows "@c" _ none (by decide) rfl,
         c10_no_sender_allows "@c" _ (some "left") (by decide) rfl⟩

/-! ## The reply generator: claim C8 -/

lemma string_append_ne_empty_left {a b : String} (h : a ≠ "") : a ++ b ≠ "" := by
  intro he
  have h2 : (a ++ b).length = 0 := by rw [he]; rfl
  rw [String.length_append] at h2
  apply h
  have h3 : a.data.length = 0 := by
    have : a.length = 0 := by omega
    exact this
  have h4 : a.data = [] := List.length_eq_zero.mp h3
  cases a with
  | mk d => simp only at h4; rw [h4]

/-- C8: the reply generator never returns the empty string — with no LLM
configured one of the fixed fallback strings (possibly with a memory
postscript) is returned, and with an LLM configured an empty or
whitespace-only LLM output is replaced by the fixed fallback. -/
theorem c8_reply_nonempty :
    ∀ (hasKey : Bool) (h : Nat) (llmOut user_text : String)
      (memory : List (String × String)),
      ai_reply hasKey h llmOut user_text memory ≠ "" := by
  intro hasKey h llmOut user_text memory
  cases hasKey with
  | false =>
    have hbase : spicy.getD (h % 4) "" ≠ "" := by
      have hlt : h % 4 < 4 := Nat.mod_lt _ (by norm_num)
      interval_cases hm : h % 4 <;> decide
    simp only [ai_reply, Bool.false_eq_true, if_false]
    split
    · exact string_append_ne_empty_left
        (string_append_ne_empty_left (string_append_ne_empty_left hbase))
    · exact hbase
  | true =>
    simp only [ai_reply, if_true]
    split
    · decide
    · assumption

/-! ## The memory store: claims C4 and C5 -/

/-- Number of rows for a given `(user, key)` pair. -/
def countMem (s : MemStore) (u : Int) (key : String) : Nat :=
  s.countP (memMatch u key)

lemma dictGet_append_last (l : List (String × String)) (k v : String) :
    dictGet (l ++ [(k, v)]) k = some v := by
  induction l with
  | nil => simp [dictGet]
  | cons p l ih => simp [dictGet, ih]

lemma memMatch_upd (u : Int) (key v : String) (now : Int) (r : MemRow) :
    memMatch u key (if memMatch u key r then (⟨r.user_id, r.k, v, now⟩ : MemRow) else r)
      = memMatch u key r := by
  split <;> simp [memMatch]

lemma dictGet_memGetAll_none {u : Int} {key : String} :
    ∀ s : MemStore, s.any (memMatch u key) = false →
    dictGet (mem_get_all s u) key = none := by
  intro s h
  induction s with
  | nil => rfl
  | cons r t ih =>
    simp only [List.any_cons, Bool.or_eq_false_iff] at h
    obtain ⟨h1, h2⟩ := h
    simp only [mem_get_all, List.filter_cons]
    by_cases hu : r.user_id = u
    · rw [if_pos (decide_eq_true hu)]
      have hrest := ih h2
      simp only [mem_get_all] at hrest
      simp only [List.map_cons, dictGet, hrest]
      have hk : r.k ≠ key := by
        intro hk
        rw [memMatch] at h1
        simp [hu, hk] at h1
      simp [hk]
    · rw [if_neg (by simpa using hu)]
      exact ih h2

lemma anyMatch_map_upd (u : Int) (key v : String) (now : Int) (s : MemStore) :
    (s.map (fun r => if memMatch u key r then (⟨r.user_id, r.k, v, now⟩ : MemRow) else r)).any
        (memMatch u key) = s.any (memMatch u key) := by
  induction s with
  | nil => rfl
  | cons r t ih => simp [List.any_cons, memMatch_upd, ih]

lemma dictGet_memGetAll_map_upd {u : Int} {key v : String} {now : Int} :
    ∀ s : MemStore, s.any (memMatch u key) = true →
    dictGet (mem_get_all
      (s.map (fun r => if memMatch u key r then (⟨r.user_id, r.k, v, now⟩ : MemRow) else r)) u)
      key = some v := by
  intro s h
  have upd_user_id : ∀ r : MemRow,
      (if memMatch u key r then (⟨r.user_id, r.k, v, now⟩ : MemRow) else r).user_id
        = r.user_id := by
    intro r; split <;> rfl
  induction s with
  | nil => simp at h
  | cons r t ih =>
    simp only [List.map_cons, mem_get_all, List.filter_cons]
    cases ht : t.any (memMatch u key) with
    | true =>
      have htail := ih ht
      simp only [mem_get_all] at htail
      rw [upd_user_id r]
      by_cases hu : r.user_id = u
      · rw [if_pos (decide_eq_true hu)]
        simp only [List.map_cons, dictGet, htail]
      · rw [if_neg (by simpa using hu)]
        exact htail
    | false =>
      have hr : memMatch u key r = true := by
        simp only [List.any_cons, ht, Bool.or_false] at h
        exact h
      have hru : r.user_id = u := by
        rw [memMatch] at hr
        simp only [Bool.and_eq_true, decide_eq_true_eq] at hr
        exact hr.1
      have hrk : r.k = key := by
        rw [memMatch] at hr
        simp only [Bool.and_eq_true, decide_eq_true_eq] at hr
        exact hr.2
      rw [if_pos hr]
      have hkeep : ((⟨r.user_id, r.k, v, now⟩ : MemRow).user_id = u) := hru
      rw [if_pos (by simpa using hkeep)]
      have hnone := dictGet_memGetAll_none
        (t.map (fun r => if memMatch u key r then (⟨r.user_id, r.k, v, now⟩ : MemRow) else r))
        (by rw [anyMatch_map_upd]; exact ht)
      simp only [mem_get_all] at hnone
      simp only [List.map_cons, dictGet, hnone, hrk]
      simp

lemma dictGet_memGetAll_set (s : MemStore) (now : Int) (u : Int) (key v : String) :
    dictGet (mem_get_all (mem_set s now u key v) u) key = some v := by
  unfold mem_set
  split
  · exact dictGet_memGetAll_map_upd s (by assumption)
  · have : mem_get_all (s ++ [(⟨u, key, v, now⟩ : MemRow)]) u
        = mem_get_all s u ++ [(key, v)] := by
      simp [mem_get_all, List.filter_append, List.map_append]
    rw [this]
    exact dictGet_append_last _ _ _

lemma countMem_set (s : MemStore) (now : Int) (u : Int) (key v : String) :
    countMem (mem_set s now u key v) u key =
      if s.any (memMatch u key) then countMem s u key else countMem s u key + 1 := by
  unfold mem_set countMem
  split
  · rw [List.countP_map]
    apply List.countP_congr
    intro r _
    simp only [Function.comp_apply, memMatch_upd u key v now r]
  · rw [List.countP_append]
    simp [memMatch, List.countP_cons]

lemma anyMatch_iff_countMem_pos (s : MemStore) (u : Int) (key : String) :
    s.any (memMatch u key) = true ↔ 0 < countMem s u key := by
  rw [countMem, List.countP_pos_iff, List.any_eq_true]

/-- C4: storing `(u, key, v1)` makes the user's memory dict map `key` to
`v1`; a second store of `(u, key, v2)` makes it map `key` to `v2`, and the
table then holds exactly one row for `(u, key)` — last write wins, no
duplication.  (The hypothesis is the table's primary-key invariant: at
most one row per `(user, key)`.) -/
theorem c4_last_write_wins :
    ∀ (s : MemStore) (now1 now2 : Int) (u : Int) (key v1 v2 : String),
      countMem s u key ≤ 1 →
      dictGet (mem_get_all (mem_set s now1 u key v1) u) key = some v1 ∧
      dictGet (mem_get_all (mem_set (mem_set s now1 u key v1) now2 u key v2) u) key
        = some v2 ∧
      countMem (mem_set (mem_set s now1 u key v1) now2 u key v2) u key = 1 := by
  intro s now1 now2 u key v1 v2 hle
  refine ⟨dictGet_memGetAll_set .., dictGet_memGetAll_set .., ?_⟩
  have h1 : countMem (mem_set s now1 u key v1) u key = 1 := by
    rw [countMem_set]
    split
    · have hpos := (anyMatch_iff_countMem_pos s u key).mp (by assumption)
      omega
    · have hz : ¬ 0 < countMem s u key := by
        intro hpos
        have := (anyMatch_iff_countMem_pos s u key).mpr hpos
        simp_all
      omega
  have hany1 : (mem_set s now1 u key v1).any (memMatch u key) = true :=
    (anyMatch_iff_countMem_pos _ u key).mpr (by omega)
  rw [countMem_set, if_pos hany1, h1]

/-- C4 witness: the empty table, key `name`, values `Rex` then `Bob`. -/
theorem c4_last_write_wins_witness :
    countMem [] 1 "name" ≤ 1 ∧
    dictGet (mem_get_all (mem_set [] 10 1 "name" "Rex") 1) "name" = some "Rex" ∧
    dictGet (mem_get_all (mem_set (mem_set [] 10 1 "name" "Rex") 20 1 "name" "Bob") 1) "name"
      = some "Bob" ∧
    countMem (mem_set (mem_set [] 10 1 "name" "Rex") 20 1 "name" "Bob") 1 "name" = 1 := by
  have h := c4_last_write_wins [] 10 20 1 "name" "Rex" "Bob" (by decide)
  exact ⟨by decide, h.1, h.2.1, h.2.2⟩

lemma mem_del_no_match {s : MemStore} {u : Int} {key : String}
    (h : s.any (memMatch u key) = false) : mem_del s u key = (s, false) := by
  unfold mem_del
  rw [h]
  rw [List.filter_eq_self.mpr]
  intro r hr
  rw [List.any_eq_false] at h
  simpa using h r hr

/-- C5: a forget intent for a key with no stored row for that user sends
the fixed "nothing to delete" message, the deletion reports failure
(`rowcount = 0`), and the memory table is left completely unchanged. -/
theorem c5_forget_missing_key :
    ∀ (rc : String) (q : Option String) (hasKey : Bool) (h : Nat) (llmOut : String)
      (mem0 : MemStore) (gs : GSStore) (now : Int) (upd : Upd) (msg : Msg)
      (rawText : String) (u : TUser) (fk : String),
      upd.message = some msg → msg.text = some rawText →
      (must_join_guard rc upd q).1 = true →
      upd.effective_user = some u →
      extract_remember_intent (pstripS rawText) = none →
      wants_forget (pstripS rawText) = some fk →
      mem0.any (memMatch u.id fk) = false →
      mem_del mem0 u.id fk = (mem0, false) ∧
      on_message rc q hasKey h llmOut mem0 gs now upd
        = ⟨["I didn’t have that saved 😼"], mem0, false⟩ := by
  intro rc q hasKey h llmOut mem0 gs now upd msg rawText u fk
  intro hmsg htext hallow hu hrem hfk hmem
  have hdel := mem_del_no_match hmem
  refine ⟨hdel, ?_⟩
  have hsent := guard_allowed_sent_nil hallow
  simp only [on_message, hmsg, htext, hallow, hsent, hrem, hfk, hu, hdel,
    Bool.not_true, Bool.false_eq_true, if_false]
  simp

/-- C5 witness: `/forget nickname` from user 7 against an empty table. -/
theorem c5_forget_missing_key_witness :
    mem_del [] 7 "nickname" = ([], false) ∧
    on_message "" none false 0 "" [] [] 0
        ⟨some ⟨some "/forget nickname", none⟩, none, ⟨5, ChatTy.private_⟩, some ⟨7, false⟩⟩
      = ⟨["I didn’t have that saved 😼"], [], false⟩ := by
  exact c5_forget_missing_key "" none false 0 "" [] [] 0
    ⟨some ⟨some "/forget nickname", none⟩, none, ⟨5, ChatTy.private_⟩, some ⟨7, false⟩⟩
    ⟨some "/forget nickname", none⟩ "/forget nickname" ⟨7, false⟩ "nickname"
    rfl rfl (by decide) rfl (by decide) (by decide) (by decide)

/-! ## The group reply policy: claim C2 -/

/-- C2: for a group-chat message that passes the gate and is no memory
intent, with the chat's effective mode `"mention"` (stored or defaulted),
a reply is produced only if the stripped text contains the wake-word
(case-insensitively) or the message replies to a bot message; otherwise
nothing is sent, the memory table is untouched and no error is raised. -/
theorem c2_mention_mode_suppression :
    ∀ (rc : String) (q : Option String) (hasKey : Bool) (h : Nat) (llmOut : String)
      (mem0 : MemStore) (gs : GSStore) (now : Int) (upd : Upd) (msg : Msg)
      (rawText : String),
      upd.message = some msg → msg.text = some rawText →
      (must_join_guard rc upd q).1 = true →
      isGroupChat upd = true →
      group_get_mode gs upd.effective_chat.id = "mention" →
      extract_remember_intent (pstripS rawText) = none →
      wants_forget (pstripS rawText) = none →
      ((is_madara_call (pstripS rawText) || repliedToBot msg) = false →
        on_message rc q hasKey h llmOut mem0 gs now upd = ⟨[], mem0, false⟩) ∧
      ((on_message rc q hasKey h llmOut mem0 gs now upd).sent ≠ [] →
        (is_madara_call (pstripS rawText) || repliedToBot msg) = true) := by
  intro rc q hasKey h llmOut mem0 gs now upd msg rawText
  intro hmsg htext hallow hgrp hmode hrem hfk
  have hsent := guard_allowed_sent_nil hallow
  constructor
  · intro hcall
    simp only [on_message, hmsg, htext, hallow, hsent, hrem, hfk, hgrp, hmode,
      hcall, Bool.not_true, Bool.false_eq_true, if_false]
    simp
  · intro hne
    by_cases hcall : (is_madara_call (pstripS rawText) || repliedToBot msg) = true
    · exact hcall
    · exfalso
      apply hne
      have hcf : (is_madara_call (pstripS rawText) || repliedToBot msg) = false := by
        simpa using hcall
      simp only [on_message, hmsg, htext, hallow, hsent, hrem, hfk, hgrp, hmode,
        hcf, Bool.not_true, Bool.false_eq_true, if_false]
      simp

/-- C2 witness: a group message `"hello there"` (no wake-word, not a
reply) with no stored mode is suppressed without error. -/
theorem c2_mention_mode_suppression_witness :
    on_message "" none false 0 "" [] [] 0
        ⟨some ⟨some "hello there", none⟩, none, ⟨9, ChatTy.group⟩, some ⟨7, false⟩⟩
      = ⟨[], [], false⟩ := by
  exact (c2_mention_mode_suppression "" none false 0 "" [] [] 0
    ⟨some ⟨some "hello there", none⟩, none, ⟨9, ChatTy.group⟩, some ⟨7, false⟩⟩
    ⟨some "hello there", none⟩ "hello there"
    rfl rfl (by decide) (by decide) (by decide) (by decide) (by decide)).1 (by decide)

/-! ## The `/mode` command: claim C6 -/

/-- The second whitespace-separated token of the command text. -/
def modeArg (rawText : String) : String :=
  (pysplitS rawText).getD 1 ""

/-- Is the `/mode` argument present and legal? -/
def modeArgValid (rawText : String) : Prop :=
  2 ≤ (pysplitS rawText).length ∧ (modeArg rawText = "mention" ∨ modeArg rawText = "always")

instance (rawText : String) : Decidable (modeArgValid rawText) := by
  unfold modeArgValid; infer_instance

/-- C6 (under a configured owner, `OWNER_ID ≠ 0`): the settings table can
change only when the command is issued in a group by the owner with a
legal argument; outside a group, by a non-owner, or with a missing or
illegal argument the table is unchanged and the fixed group-only, refusal
or usage message is sent; on the legal path the table is updated via
`group_set_mode` with exactly the given argument. -/
theorem c6_mode_owner_only :
    ∀ (ownerId : Int) (gs : GSStore) (upd : Upd) (msg : Msg) (rawText : String) (u : TUser),
      ownerId ≠ 0 →
      upd.message = some msg → msg.text = some rawText →
      upd.effective_user = some u →
      (((mode_cmd ownerId gs upd).gs ≠ gs) →
        (isGroupChat upd = true ∧ u.id = ownerId ∧ modeArgValid rawText)) ∧
      (isGroupChat upd = false →
        mode_cmd ownerId gs upd = ⟨gs, ["This command is for groups only."], false⟩) ∧
      (isGroupChat upd = true → u.id ≠ ownerId →
        mode_cmd ownerId gs upd = ⟨gs, ["Only owner can change group mode 😈"], false⟩) ∧
      (isGroupChat upd = true → u.id = ownerId → ¬ modeArgValid rawText →
        mode_cmd ownerId gs upd = ⟨gs, ["Usage: /mode mention  OR  /mode always"], false⟩) ∧
      (isGroupChat upd = true → u.id = ownerId → modeArgValid rawText →
        mode_cmd ownerId gs upd
          = ⟨group_set_mode gs upd.effective_chat.id (modeArg rawText),
             ["Group mode set to: " ++ modeArg rawText ++ " ✅"], false⟩) := by
  intro ownerId gs upd msg rawText u howner hmsg htext hu
  have harg : (msg.text.getD "") = rawText := by rw [htext]; rfl
  have hng : ∀ hg : isGroupChat upd = false,
      mode_cmd ownerId gs upd = ⟨gs, ["This command is for groups only."], false⟩ := by
    intro hg
    simp only [mode_cmd, hmsg, hg, Bool.not_false, if_true]
  have hidx : (pysplitS rawText).getD 1 "" = (pysplitS rawText)[1]?.getD "" :=
    List.getD_eq_getElem?_getD _ 1 ""
  have hno : ∀ (_ : isGroupChat upd = true) (_ : u.id ≠ ownerId),
      mode_cmd ownerId gs upd = ⟨gs, ["Only owner can change group mode 😈"], false⟩ := by
    intro hg hne
    have hbne : (u.id != ownerId) = true := by simp [hne]
    simp only [mode_cmd, hmsg, hg, Bool.not_true, Bool.false_eq_true, if_false,
      if_neg howner, hu, hbne]
  have husage : ∀ (_ : isGroupChat upd = true) (_ : u.id = ownerId)
      (_ : ¬ modeArgValid rawText),
      mode_cmd ownerId gs upd = ⟨gs, ["Usage: /mode mention  OR  /mode always"], false⟩ := by
    intro hg heq hbad
    have hbne : (u.id != ownerId) = false := by simp [heq]
    simp only [mode_cmd, hmsg, hg, Bool.not_true, Bool.false_eq_true, if_false,
      if_neg howner, hu, hbne, harg]
    rw [if_pos]
    unfold modeArgValid modeArg at hbad
    rw [hidx] at hbad
    push_neg at hbad
    by_cases hlen : (pysplitS rawText).length < 2
    · simp [hlen]
    · have h2 := hbad (by omega)
      push_neg at h2
      simp [hlen, h2.1, h2.2]
  have hset : ∀ (_ : isGroupChat upd = true) (_ : u.id = ownerId)
      (_ : modeArgValid rawText),
      mode_cmd ownerId gs upd
        = ⟨group_set_mode gs upd.effective_chat.id (modeArg rawText),
           ["Group mode set to: " ++ modeArg rawText ++ " ✅"], false⟩ := by
    intro hg heq hok
    obtain ⟨hlen, hor⟩ := hok
    have hbne : (u.id != ownerId) = false := by simp [heq]
    simp only [mode_cmd, hmsg, hg, Bool.not_true, Bool.false_eq_true, if_false,
      if_neg howner, hu, hbne, harg]
    unfold modeArg at hor ⊢
    rw [hidx] at hor ⊢
    have hX : decide ((pysplitS rawText).length < 2) = false := by
      simp only [decide_eq_false_iff_not]
      omega
    have hY : (!(decide ((pysplitS rawText)[1]?.getD "" = "mention")
        || decide ((pysplitS rawText)[1]?.getD "" = "always"))) = false := by
      rcases hor with h1 | h1 <;> simp [h1]
    rw [if_neg (by rw [hX, hY]; simp)]
  refine ⟨?_, hng, hno, husage, hset⟩
  intro hchanged
  by_cases hg : isGroupChat upd = true
  · by_cases he : u.id = ownerId
    · by_cases hv : modeArgValid rawText
      · exact ⟨hg, he, hv⟩
      · exact absurd (by rw [husage hg he hv]) hchanged
    · exact absurd (by rw [hno hg he]) hchanged
  · have hgf : isGroupChat upd = false := by simpa using hg
    exact absurd (by rw [hng hgf]) hchanged

/-- C6 witness: owner 42 in group 3 sets `always`; user 7 is refused. -/
theorem c6_mode_owner_only_witness :
    mode_cmd 42 [] ⟨some ⟨some "/mode always", none⟩, none, ⟨3, ChatTy.group⟩, some ⟨42, false⟩⟩
      = ⟨[(3, "always")], ["Group mode set to: always ✅"], false⟩ ∧
    mode_cmd 42 [] ⟨some ⟨some "/mode always", none⟩, none, ⟨3, ChatTy.group⟩, some ⟨7, false⟩⟩
      = ⟨[], ["Only owner can change group mode 😈"], false⟩ := by
  constructor
  · have h := (c6_mode_owner_only 42 []
      ⟨some ⟨some "/mode always", none⟩, none, ⟨3, ChatTy.group⟩, some ⟨42, false⟩⟩
      ⟨some "/mode always", none⟩ "/mode always" ⟨42, false⟩
      (by decide) rfl rfl rfl).2.2.2.2 (by decide) (by decide) (by decide)
    rw [h]
    decide
  · exact (c6_mode_owner_only 42 []
      ⟨some ⟨some "/mode always", none⟩, none, ⟨3, ChatTy.group⟩, some ⟨7, false⟩⟩
      ⟨some "/mode always", none⟩ "/mode always" ⟨7, false⟩
      (by decide) rfl rfl rfl).2.2.1 (by decide) (by decide)

/-! ## Pattern precedence in the remember classifier: claim C3 -/

/-- C3: `extract_remember_intent` tries the command form, then the
`my ... is` form, then the loose `key: value` form, and returns the
post-processed captures of the first pattern that matches; a text matched
by an earlier pattern is never classified by a later one, and a text
matched by none yields no intent. -/
theorem c3_first_match_wins :
    (∀ (t : String) (r : List Char × List Char),
      match1 t.data = some r → extract_remember_intent t = some (postKV r)) ∧
    (∀ (t : String) (r : List Char × List Char),
      match1 t.data = none → match2 t.data = some r →
      extract_remember_intent t = some (postKV r)) ∧
    (∀ (t : String) (r : List Char × List Char),
      match1 t.data = none → match2 t.data = none → match3 t.data = some r →
      extract_remember_intent t = some (postKV r)) ∧
    (∀ t : String,
      match1 t.data = none → match2 t.data = none → match3 t.data = none →
      extract_remember_intent t = none) := by
  have hempty : match1 ("" : String).data = none := by decide
  refine ⟨?_, ?_, ?_, ?_⟩
  · intro t r h1
    by_cases ht : t = ""
    · subst ht; rw [hempty] at h1; exact absurd h1 (by simp)
    · simp only [extract_remember_intent, if_neg ht, h1]
  · intro t r h1 h2
    by_cases ht : t = ""
    · subst ht
      have : match2 ("" : String).data = none := by decide
      rw [this] at h2; exact absurd h2 (by simp)
    · simp only [extract_remember_intent, if_neg ht, h1, h2]
  · intro t r h1 h2 h3
    by_cases ht : t = ""
    · subst ht
      have : match3 ("" : String).data = none := by decide
      rw [this] at h3; exact absurd h3 (by simp)
    · simp only [extract_remember_intent, if_neg ht, h1, h2, h3]
  · intro t h1 h2 h3
    by_cases ht : t = ""
    · subst ht; rfl
    · simp only [extract_remember_intent, if_neg ht, h1, h2, h3]

/-- C3 witness: on `"remember k: v and remember my a is b"` both the
second and the third pattern match, with different captures; the earlier
second pattern wins, so the result is `("a", "b")`, not the loose-pattern
capture `("k", "v and remember my a is b")`. -/
theorem c3_first_match_wins_witness :
    extract_remember_intent "remember k: v and remember my a is b" = some ("a", "b") ∧
    match3 "remember k: v and remember my a is b".data
      = some ("k".data, "v and remember my a is b".data) := by
  constructor
  · exact c3_first_match_wins.2.1 "remember k: v and remember my a is b"
      ("a".data, "b".data) (by decide) (by decide)
  · decide

/-! ## Soundness of the matcher combinators -/

lemma mem_mbind {α β : Type} (m : M α) (f : α → M β) (st : St) (x : β × St) :
    x ∈ mbind m f st ↔ ∃ p ∈ m st, x ∈ f p.1 p.2 := by
  simp [mbind, List.mem_flatMap]

lemma mem_mret {α : Type} (a : α) (st : St) (x : α × St) :
    x ∈ mret a st ↔ x = (a, st) := by
  simp [mret]

lemma mRepGreedy_sound (p : Char → Bool) :
    ∀ (max min : Nat) (st : St) (l : List Char) (st' : St),
      (l, st') ∈ mRepGreedy p min max st →
      l.all p = true ∧ min ≤ l.length ∧ l.length ≤ max ∧ st.rest = l ++ st'.rest := by
  intro max
  induction max with
  | zero =>
    intro min st l st' h
    simp only [mRepGreedy] at h
    by_cases hmin : min = 0
    · rw [if_pos hmin] at h
      simp only [List.mem_singleton, Prod.mk.injEq] at h
      rcases h with ⟨rfl, rfl⟩
      simp [hmin]
    · rw [if_neg hmin] at h
      simp at h
  | succ n ih =>
    intro min st l st' h
    obtain ⟨prev, rest⟩ := st
    cases rest with
    | nil =>
      simp only [mRepGreedy] at h
      by_cases hmin : min = 0
      · rw [if_pos hmin] at h
        simp only [List.mem_singleton, Prod.mk.injEq] at h
        rcases h with ⟨rfl, rfl⟩
        simp [hmin]
      · rw [if_neg hmin] at h
        simp at h
    | cons c cs =>
      simp only [mRepGreedy] at h
      by_cases hp : p c = true
      · rw [if_pos hp] at h
        rw [List.mem_append] at h
        rcases h with h | h
        · rw [List.mem_map] at h
          obtain ⟨⟨q, qst⟩, hq, heq⟩ := h
          obtain ⟨ha, hmin', hmax, hrest⟩ := ih (min - 1) ⟨some c, cs⟩ q qst hq
          obtain ⟨h1, h2⟩ := Prod.mk.injEq .. |>.mp heq
          subst h2
          subst h1
          refine ⟨by simp [List.all_cons, hp, ha], by simp; omega, by simp; omega, ?_⟩
          simpa using hrest
        · by_cases hmin : min = 0
          · rw [if_pos hmin] at h
            simp only [List.mem_singleton, Prod.mk.injEq] at h
            rcases h with ⟨rfl, rfl⟩
            simp [hmin]
          · rw [if_neg hmin] at h
            simp at h
      · rw [if_neg hp] at h
        by_cases hmin : min = 0
        · rw [if_pos hmin] at h
          simp only [List.mem_singleton, Prod.mk.injEq] at h
          rcases h with ⟨rfl, rfl⟩
          simp [hmin]
        · rw [if_neg hmin] at h
          simp at h

lemma mPlus_sound {p : Char → Bool} {st : St} {l : List Char} {st' : St}
    (h : (l, st') ∈ mPlus p st) :
    l.all p = true ∧ 1 ≤ l.length := by
  have := mRepGreedy_sound p st.rest.length 1 st l st' h
  exact ⟨this.1, this.2.1⟩

lemma firstMatch_some {α : Type} {m : M α} {st : St} {a : α}
    (h : firstMatch m st = some a) : ∃ p ∈ m st, p.1 = a := by
  unfold firstMatch at h
  rw [Option.map_eq_some'] at h
  obtain ⟨p, hp, hfa⟩ := h
  refine ⟨p, ?_, hfa⟩
  cases he : m st with
  | nil => rw [he] at hp; simp at hp
  | cons x xs =>
    rw [he] at hp
    simp only [List.head?_cons, Option.some.injEq] at hp
    exact hp ▸ List.mem_cons_self x xs

lemma searchM_some {α : Type} {m : M α} :
    ∀ (l : List Char) (prev : Option Char) (a : α),
      searchM m prev l = some a → ∃ st, ∃ p ∈ m st, p.1 = a := by
  intro l
  induction l with
  | nil =>
    intro prev a h
    unfold searchM at h
    exact ⟨⟨prev, []⟩, firstMatch_some h⟩
  | cons c cs ih =>
    intro prev a h
    unfold searchM at h
    cases hfm : firstMatch m ⟨prev, c :: cs⟩ with
    | some b =>
      rw [hfm] at h
      simp only [Option.some.injEq] at h
      subst h
      exact ⟨⟨prev, c :: cs⟩, firstMatch_some hfm⟩
    | none =>
      rw [hfm] at h
      exact ih (some c) a h

/-- Capture soundness for the first remember pattern. -/
lemma pat1_sound {st : St} {r : List Char × List Char} {st' : St}
    (h : (r, st') ∈ pat1 st) :
    r.1.all keyClass = true ∧ 1 ≤ r.1.length ∧ r.1.length ≤ 32 ∧
    r.2.all dotClass = true ∧ 1 ≤ r.2.length ∧ r.2.length ≤ 200 := by
  simp only [pat1, mem_mbind, mem_mret] at h
  obtain ⟨⟨u1, st1⟩, h1, h⟩ := h
  obtain ⟨⟨w1, st2⟩, h2, h⟩ := h
  obtain ⟨⟨k, st3⟩, hk, h⟩ := h
  obtain ⟨⟨w2, st4⟩, h4, h⟩ := h
  obtain ⟨⟨e1, st5⟩, h5, h⟩ := h
  obtain ⟨⟨w3, st6⟩, h6, h⟩ := h
  obtain ⟨⟨v, st7⟩, hv, h⟩ := h
  obtain ⟨⟨u2, st8⟩, h8, h⟩ := h
  have hkf := mRepGreedy_sound keyClass 32 1 st2 k st3 hk
  have hvf := mRepGreedy_sound dotClass 200 1 st6 v st7 hv
  have hr : r = (k, v) := by
    have := Prod.mk.injEq .. |>.mp h
    exact this.1
  subst hr
  exact ⟨hkf.1, hkf.2.1, hkf.2.2.1, hvf.1, hvf.2.1, hvf.2.2.1⟩

/-- Capture soundness for the second remember pattern. -/
lemma pat2core_sound {st : St} {r : List Char × List Char} {st' : St}
    (h : (r, st') ∈ pat2core st) :
    r.1.all keyClass = true ∧ 1 ≤ r.1.length ∧ r.1.length ≤ 32 ∧
    r.2.all dotClass = true ∧ 1 ≤ r.2.length ∧ r.2.length ≤ 200 := by
  simp only [pat2core, mem_mbind, mem_mret] at h
  obtain ⟨⟨b1, st1⟩, h1, h⟩ := h
  obtain ⟨⟨u1, st2⟩, h2, h⟩ := h
  obtain ⟨⟨b2, st3⟩, h3, h⟩ := h
  obtain ⟨⟨w1, st4⟩, h4, h⟩ := h
  obtain ⟨⟨o1, st5⟩, h5, h⟩ := h
  obtain ⟨⟨u2, st6⟩, h6, h⟩ := h
  obtain ⟨⟨w2, st7⟩, h7, h⟩ := h
  obtain ⟨⟨k, st8⟩, hk, h⟩ := h
  obtain ⟨⟨w3, st9⟩, h9, h⟩ := h
  obtain ⟨⟨a1, st10⟩, h10, h⟩ := h
  obtain ⟨⟨w4, st11⟩, h11, h⟩ := h
  obtain ⟨⟨v, st12⟩, hv, h⟩ := h
  have hkf := mRepGreedy_sound keyClass 32 1 st7 k st8 hk
  have hvf := mRepGreedy_sound dotClass 200 1 st11 v st12 hv
  have hr : r = (k, v) := by
    have := Prod.mk.injEq .. |>.mp h
    exact this.1
  subst hr
  exact ⟨hkf.1, hkf.2.1, hkf.2.2.1, hvf.1, hvf.2.1, hvf.2.2.1⟩

/-- Capture soundness for the third remember pattern. -/
lemma pat3core_sound {st : St} {r : List Char × List Char} {st' : St}
    (h : (r, st') ∈ pat3core st) :
    r.1.all keyClass = true ∧ 1 ≤ r.1.length ∧ r.1.length ≤ 32 ∧
    r.2.all dotClass = true ∧ 1 ≤ r.2.length ∧ r.2.length ≤ 200 := by
  simp only [pat3core, mem_mbind, mem_mret] at h
  obtain ⟨⟨b1, st1⟩, h1, h⟩ := h
  obtain ⟨⟨u1, st2⟩, h2, h⟩ := h
  obtain ⟨⟨b2, st3⟩, h3, h⟩ := h
  obtain ⟨⟨w1, st4⟩, h4, h⟩ := h
  obtain ⟨⟨k, st5⟩, hk, h⟩ := h
  obtain ⟨⟨w2, st6⟩, h6, h⟩ := h
  obtain ⟨⟨c1, st7⟩, h7, h⟩ := h
  obtain ⟨⟨w3, st8⟩, h8, h⟩ := h
  obtain ⟨⟨v, st9⟩, hv, h⟩ := h
  have hkf := mRepGreedy_sound keyClass 32 1 st4 k st5 hk
  have hvf := mRepGreedy_sound dotClass 200 1 st8 v st9 hv
  have hr : r = (k, v) := by
    have := Prod.mk.injEq .. |>.mp h
    exact this.1
  subst hr
  exact ⟨hkf.1, hkf.2.1, hkf.2.2.1, hvf.1, hvf.2.1, hvf.2.2.1⟩

/-- Capture soundness for the forget command pattern. -/
lemma fpat1_sound {st : St} {k : List Char} {st' : St}
    (h : (k, st') ∈ fpat1 st) :
    k.all keyClass = true ∧ 1 ≤ k.length ∧ k.length ≤ 32 := by
  simp only [fpat1, mem_mbind, mem_mret] at h
  obtain ⟨⟨u1, st1⟩, h1, h⟩ := h
  obtain ⟨⟨w1, st2⟩, h2, h⟩ := h
  obtain ⟨⟨kk, st3⟩, hk, h⟩ := h
  obtain ⟨⟨u2, st4⟩, h4, h⟩ := h
  have hkf := mRepGreedy_sound keyClass 32 1 st2 kk st3 hk
  have hr : k = kk := by
    have := Prod.mk.injEq .. |>.mp h
    exact this.1
  subst hr
  exact ⟨hkf.1, hkf.2.1, hkf.2.2.1⟩

/-- Capture soundness for the natural-language forget pattern. -/
lemma fpat2core_sound {st : St} {k : List Char} {st' : St}
    (h : (k, st') ∈ fpat2core st) :
    k.all keyClass = true ∧ 1 ≤ k.length ∧ k.length ≤ 32 := by
  simp only [fpat2core, mem_mbind, mem_mret] at h
  obtain ⟨⟨b1, st1⟩, h1, h⟩ := h
  obtain ⟨⟨u1, st2⟩, h2, h⟩ := h
  obtain ⟨⟨b2, st3⟩, h3, h⟩ := h
  obtain ⟨⟨w1, st4⟩, h4, h⟩ := h
  obtain ⟨⟨u2, st5⟩, h5, h⟩ := h
  obtain ⟨⟨w2, st6⟩, h6, h⟩ := h
  obtain ⟨⟨kk, st7⟩, hk, h⟩ := h
  obtain ⟨⟨b3, st8⟩, h8, h⟩ := h
  have hkf := mRepGreedy_sound keyClass 32 1 st6 kk st7 hk
  have hr : k = kk := by
    have := Prod.mk.injEq .. |>.mp h
    exact this.1
  subst hr
  exact ⟨hkf.1, hkf.2.1, hkf.2.2.1⟩

/-! ## Strip idempotence -/

lemma dropWhile_head_not (p : Char → Bool) (l : List Char) :
    ∀ x, (l.dropWhile p).head? = some x → p x = false := by
  induction l with
  | nil => intro x h; simp at h
  | cons c cs ih =>
    intro x h
    by_cases hp : p c = true
    · rw [List.dropWhile_cons, if_pos hp] at h
      exact ih x h
    · rw [List.dropWhile_cons, if_neg hp] at h
      simp only [List.head?_cons, Option.some.injEq] at h
      subst h
      simpa using hp

lemma dropWhile_eq_self_of_head {p : Char → Bool} {l : List Char}
    (h : ∀ x, l.head? = some x → p x = false) : l.dropWhile p = l := by
  cases l with
  | nil => rfl
  | cons c cs =>
    rw [List.dropWhile_cons, if_neg]
    rw [h c rfl]
    simp

lemma pstrip_idem (l : List Char) : pstrip (pstrip l) = pstrip l := by
  unfold pstrip
  set m := l.dropWhile wsClass with hm
  set d := m.reverse.dropWhile wsClass with hd
  have hd_suffix : d <:+ m.reverse := List.dropWhile_suffix wsClass
  have hd_rev_prefix : d.reverse <+: m := by
    have := List.reverse_prefix.mpr hd_suffix
    rwa [List.reverse_reverse] at this
  have h1 : d.reverse.dropWhile wsClass = d.reverse := by
    apply dropWhile_eq_self_of_head
    intro x hx
    obtain ⟨t, ht⟩ := hd_rev_prefix
    have hmx : m.head? = some x := by
      rw [← ht, List.head?_append, hx]
      rfl
    exact dropWhile_head_not wsClass l x hmx
  rw [h1, List.reverse_reverse]
  have h2 : d.dropWhile wsClass = d := by
    apply dropWhile_eq_self_of_head
    intro x hx
    exact dropWhile_head_not wsClass m.reverse x hx
  rw [h2]

lemma pstrip_length_le (l : List Char) : (pstrip l).length ≤ l.length := by
  unfold pstrip
  have h1 := (List.dropWhile_suffix (l := l) wsClass).length_le
  have h2 := (List.dropWhile_suffix (l := (l.dropWhile wsClass).reverse) wsClass).length_le
  simp only [List.length_reverse] at *
  omega

/-! ## Key and value constraints of the classifiers: claim C7 -/

/-- Constraints satisfied by a post-processed (lowercased) key capture. -/
lemma key_post_ok {rk : List Char} (h1 : rk.all keyClass = true)
    (h2 : 1 ≤ rk.length) (h3 : rk.length ≤ 32) :
    1 ≤ (String.mk (lowerL rk)).length ∧ (String.mk (lowerL rk)).length ≤ 32 ∧
    (String.mk (lowerL rk)).data.all keyClass = true ∧
    lowerS (String.mk (lowerL rk)) = String.mk (lowerL rk) := by
  have hlen : (String.mk (lowerL rk)).length = rk.length := by
    show (lowerL rk).length = rk.length
    simp [lowerL]
  rw [List.all_eq_true] at h1
  refine ⟨by omega, by omega, ?_, ?_⟩
  · show (lowerL rk).all keyClass = true
    rw [lowerL, List.all_map, List.all_eq_true]
    intro x hx
    exact (keyClass_toLower (h1 x hx)).1
  · show String.mk (lowerL (lowerL rk)) = String.mk (lowerL rk)
    congr 1
    simp only [lowerL, List.map_map]
    apply List.map_congr_left
    intro x hx
    exact (keyClass_toLower (h1 x hx)).2.1

/-- Constraints satisfied by a post-processed (stripped) value capture. -/
lemma val_post_ok {rv : List Char} (h : rv.length ≤ 200) :
    pstripS (String.mk (pstrip rv)) = String.mk (pstrip rv) ∧
    (String.mk (pstrip rv)).length ≤ 200 := by
  constructor
  · show String.mk (pstrip (pstrip rv)) = String.mk (pstrip rv)
    rw [pstrip_idem]
  · show (pstrip rv).length ≤ 200
    exact le_trans (pstrip_length_le rv) h

/-- C7 counterexample: the text `"remember my name is  "` (two trailing
spaces) is classified as a remember intent whose extracted value is the
empty string — its length 0 is outside the claimed 1–200 range.  (The
second pattern's greedy `\s+` backtracks one space, so the captured value
is a single space, which `.strip()` empties.) -/
theorem c7_counterexample :
    extract_remember_intent "remember my name is  " = some ("name", "") ∧
    ("" : String).length = 0 := by
  constructor
  · decide
  · rfl

/-- C7 as amended: every key extracted by the remember or forget
classifier is lowercase, 1–32 characters from `[A-Za-z0-9_-]`; every
extracted remember value is trimmed of surrounding whitespace and has
length at most 200 (possibly 0, as the counterexample forces). -/
theorem c7_amended_key_value_constraints :
    (∀ (t k v : String), extract_remember_intent t = some (k, v) →
      1 ≤ k.length ∧ k.length ≤ 32 ∧ k.data.all keyClass = true ∧ lowerS k = k ∧
      pstripS v = v ∧ v.length ≤ 200) ∧
    (∀ (t k : String), wants_forget t = some k →
      1 ≤ k.length ∧ k.length ≤ 32 ∧ k.data.all keyClass = true ∧ lowerS k = k) := by
  constructor
  · intro t k v hx
    by_cases ht : t = ""
    · rw [ht] at hx
      simp [extract_remember_intent] at hx
    · have main : ∀ (rk rv : List Char),
          rk.all keyClass = true → 1 ≤ rk.length → rk.length ≤ 32 →
          rv.length ≤ 200 →
          postKV (rk, rv) = (k, v) →
          1 ≤ k.length ∧ k.length ≤ 32 ∧ k.data.all keyClass = true ∧ lowerS k = k ∧
          pstripS v = v ∧ v.length ≤ 200 := by
        intro rk rv ha h1 h32 h200 hpost
        simp only [postKV, Prod.mk.injEq] at hpost
        obtain ⟨hk, hv⟩ := hpost
        subst hk; subst hv
        obtain ⟨q1, q2, q3, q4⟩ := key_post_ok ha h1 h32
        obtain ⟨q5, q6⟩ := val_post_ok h200
        exact ⟨q1, q2, q3, q4, q5, q6⟩
      simp only [extract_remember_intent, if_neg ht] at hx
      cases hm1 : match1 t.data with
      | some r =>
        rw [hm1] at hx
        simp only [Option.some.injEq] at hx
        unfold match1 at hm1
        obtain ⟨⟨⟨rk, rv⟩, st'⟩, hmem, hfst⟩ := firstMatch_some hm1
        obtain ⟨ha, h1, h32, hv, hv1, h200⟩ := pat1_sound hmem
        have hr : r = (rk, rv) := hfst.symm
        subst hr
        exact main rk rv ha h1 h32 h200 hx
      | none =>
        rw [hm1] at hx
        cases hm2 : match2 t.data with
        | some r =>
          rw [hm2] at hx
          simp only [Option.some.injEq] at hx
          unfold match2 at hm2
          obtain ⟨st, ⟨⟨rk, rv⟩, st'⟩, hmem, hfst⟩ := searchM_some _ none _ hm2
          obtain ⟨ha, h1, h32, hv, hv1, h200⟩ := pat2core_sound hmem
          have hr : r = (rk, rv) := hfst.symm
          subst hr
          exact main rk rv ha h1 h32 h200 hx
        | none =>
          rw [hm2] at hx
          cases hm3 : match3 t.data with
          | some r =>
            rw [hm3] at hx
            simp only [Option.some.injEq] at hx
            unfold match3 at hm3
            obtain ⟨st, ⟨⟨rk, rv⟩, st'⟩, hmem, hfst⟩ := searchM_some _ none _ hm3
            obtain ⟨ha, h1, h32, hv, hv1, h200⟩ := pat3core_sound hmem
            have hr : r = (rk, rv) := hfst.symm
            subst hr
            exact main rk rv ha h1 h32 h200 hx
          | none =>
            rw [hm3] at hx
            exact absurd hx (by simp)
  · intro t k hx
    by_cases ht : t = ""
    · rw [ht] at hx
      simp [wants_forget] at hx
    · have main : ∀ (rk : List Char),
          rk.all keyClass = true → 1 ≤ rk.length → rk.length ≤ 32 →
          String.mk (lowerL rk) = k →
          1 ≤ k.length ∧ k.length ≤ 32 ∧ k.data.all keyClass = true ∧ lowerS k = k := by
        intro rk ha h1 h32 hk
        subst hk
        exact key_post_ok ha h1 h32
      simp only [wants_forget, if_neg ht] at hx
      cases hm1 : firstMatch fpat1 ⟨none, pstrip t.data⟩ with
      | some rk =>
        rw [hm1] at hx
        simp only [Option.some.injEq] at hx
        obtain ⟨⟨rk', st'⟩, hmem, hfst⟩ := firstMatch_some hm1
        obtain ⟨ha, h1, h32⟩ := fpat1_sound hmem
        have hr : rk = rk' := hfst.symm
        subst hr
        exact main rk ha h1 h32 hx
      | none =>
        rw [hm1] at hx
        cases hm2 : searchM fpat2core none t.data with
        | some rk =>
          rw [hm2] at hx
          simp only [Option.some.injEq] at hx
          obtain ⟨st, ⟨rk', st'⟩, hmem, hfst⟩ := searchM_some _ none _ hm2
          obtain ⟨ha, h1, h32⟩ := fpat2core_sound hmem
          have hr : rk = rk' := hfst.symm
          subst hr
          exact main rk ha h1 h32 hx
        | none =>
          rw [hm2] at hx
          exact absurd hx (by simp)

/-- C7 amended witness: the command `/remember Name=Rex` and the forget
text `dont forget my Nick_Name now` at concrete inputs. -/
theorem c7_amended_key_value_constraints_witness :
    (1 ≤ ("name" : String).length ∧ ("name" : String).length ≤ 32 ∧
      ("name" : String).data.all keyClass = true ∧ lowerS "name" = "name" ∧
      pstripS "Rex" = "Rex" ∧ ("Rex" : String).length ≤ 200) ∧
    (1 ≤ ("nick_name" : String).length ∧ ("nick_name" : String).length ≤ 32 ∧
      ("nick_name" : String).data.all keyClass = true ∧ lowerS "nick_name" = "nick_name") := by
  constructor
  · exact c7_amended_key_value_constraints.1 "/remember Name=Rex" "name" "Rex" (by decide)
  · exact c7_amended_key_value_constraints.2 "dont forget my Nick_Name now" "nick_name" (by decide)

/-! ## Unanchored matching of the natural-language patterns: claim C9 -/

/-- The character preceding the position just after `l`, when the position
just before `l` is preceded by `pr`. -/
def lastPrev (pr : Option Char) (l : List Char) : Option Char :=
  match l.getLast? with
  | some c => some c
  | none => pr

lemma lastPrev_cons (pr : Option Char) (c : Char) (l : List Char) :
    lastPrev pr (c :: l) = lastPrev (some c) l := by
  unfold lastPrev
  rw [List.getLast?_cons]
  cases h : l.getLast? with
  | none => simp [h]
  | some d => simp [h]

/-- If a matcher produces nothing anywhere strictly inside `t1`, the
search skips `t1` entirely. -/
lemma searchM_skip {α : Type} (m : M α) (rest : List Char) :
    ∀ (t1 : List Char) (pr : Option Char),
      (∀ (pr' : Option Char) (s₂ : List Char), s₂ ≠ [] → s₂ <:+ t1 →
        m ⟨pr', s₂ ++ rest⟩ = []) →
      searchM m pr (t1 ++ rest) = searchM m (lastPrev pr t1) rest := by
  intro t1
  induction t1 with
  | nil =>
    intro pr _
    rfl
  | cons c t1' ih =>
    intro pr h
    have hfail := h pr (c :: t1') (by simp) (List.suffix_refl _)
    simp only [List.cons_append] at hfail
    have hfm : firstMatch m ⟨pr, c :: (t1' ++ rest)⟩ = none := by
      unfold firstMatch
      rw [hfail]
      rfl
    have hstep : searchM m pr ((c :: t1') ++ rest) = searchM m (some c) (t1' ++ rest) := by
      rw [List.cons_append]
      show (match firstMatch m ⟨pr, c :: (t1' ++ rest)⟩ with
            | some a => some a
            | none => searchM m (some c) (t1' ++ rest)) = _
      rw [hfm]
    rw [hstep, lastPrev_cons]
    exact ih (some c) (fun pr' s₂ hne hs => h pr' s₂ hne (hs.trans (List.suffix_cons c t1')))

/-- A successful case-insensitive literal match consumed a block whose
lowercasing is the literal. -/
lemma mLitCI_sound :
    ∀ (lit : List Char) (st : St) (u : Unit) (st' : St),
      (u, st') ∈ mLitCI lit st →
      ∃ pre, st.rest = pre ++ st'.rest ∧ lowerL pre = lit := by
  intro lit
  induction lit with
  | nil =>
    intro st u st' h
    rw [mLitCI, mem_mret] at h
    obtain ⟨_, h2⟩ := Prod.mk.injEq .. |>.mp h
    subst h2
    exact ⟨[], by simp, rfl⟩
  | cons l ls ih =>
    intro st u st' h
    obtain ⟨prev, rest⟩ := st
    cases rest with
    | nil => simp [mLitCI] at h
    | cons c cs =>
      by_cases hc : c.toLower = l
      · simp only [mLitCI, if_pos hc] at h
        obtain ⟨pre, hp1, hp2⟩ := ih ⟨some c, cs⟩ u st' h
        have hp1' : cs = pre ++ st'.rest := hp1
        refine ⟨c :: pre, ?_, ?_⟩
        · show c :: cs = (c :: pre) ++ st'.rest
          rw [hp1']
          rfl
        · show lowerL (c :: pre) = l :: ls
          simp only [lowerL, List.map_cons, hc]
          simp only [lowerL] at hp2
          rw [hp2]
      · simp [mLitCI, hc] at h

lemma mWb_mem {st : St} {a : Unit} {st' : St} (h : (a, st') ∈ mWb st) : st' = st := by
  unfold mWb at h
  split at h
  · simp only [List.mem_singleton, Prod.mk.injEq] at h
    exact h.2
  · simp at h

/-- A non-empty result of the natural-language forget pattern implies the
next six characters lowercase to `"forget"`. -/
lemma fpat2_ne_implies_take {st : St} (h : fpat2core st ≠ []) :
    lowerL (st.rest.take 6) = "forget".data := by
  obtain ⟨x, hx⟩ := List.exists_mem_of_ne_nil _ h
  simp only [fpat2core, mem_mbind] at hx
  obtain ⟨⟨b1, st1⟩, hb1, hx⟩ := hx
  obtain ⟨⟨u1, st2⟩, hlit, _⟩ := hx
  have hst1 : st1 = st := mWb_mem hb1
  subst hst1
  obtain ⟨pre, hp1, hp2⟩ := mLitCI_sound "forget".data _ u1 st2 hlit
  have hlen : pre.length = 6 := by
    have := congrArg List.length hp2
    simpa [lowerL] using this
  rw [hp1, ← hlen, List.take_left]
  exact hp2

/-! ## `containsL` agrees with `List.IsInfix` -/

lemma startsWithL_iff : ∀ (needle hay : List Char),
    startsWithL hay needle = true ↔ needle <+: hay := by
  intro needle
  induction needle with
  | nil =>
    intro hay
    simp [startsWithL]
  | cons n ns ih =>
    intro hay
    cases hay with
    | nil =>
      simp [startsWithL]
    | cons c cs =>
      rw [startsWithL]
      rw [Bool.and_eq_true, decide_eq_true_eq]
      rw [ih cs, List.cons_prefix_cons]
      constructor
      · rintro ⟨h1, h2⟩
        exact ⟨h1.symm, h2⟩
      · rintro ⟨h1, h2⟩
        exact ⟨h1.symm, h2⟩

lemma containsL_iff : ∀ (hay needle : List Char),
    containsL hay needle = true ↔ needle <:+: hay := by
  intro hay needle
  induction hay with
  | nil =>
    rw [containsL, startsWithL_iff]
    constructor
    · intro h
      exact h.isInfix
    · intro h
      have hn : needle = [] := by simpa using h
      simp [hn]
  | cons c cs ih =>
    rw [containsL]
    rw [Bool.or_eq_true, startsWithL_iff, ih, List.infix_cons_iff]

/-! ## Computing the match at the embedded occurrence -/

lemma mbind_single {α β : Type} {m : M α} {f : α → M β} {st : St} {a : α} {st1 : St}
    (h : m st = [(a, st1)]) : mbind m f st = f a st1 := by
  simp [mbind, h]

lemma mbind_cons {α β : Type} {m : M α} {f : α → M β} {st : St} {a : α} {st1 : St}
    {tl : List (α × St)} (h : m st = (a, st1) :: tl) :
    mbind m f st = f a st1 ++ tl.flatMap (fun p => f p.1 p.2) := by
  simp [mbind, h]

lemma mWb_single {st : St} (h : (isWordOpt st.prev != isWordOpt st.rest.head?) = true) :
    mWb st = [((), st)] := by
  unfold mWb
  rw [if_pos h]

/-- An exact lowercase literal at the head of the input matches,
consuming it. -/
lemma mLitCI_lit : ∀ (lit : List Char), (∀ c ∈ lit, c.toLower = c) →
    ∀ (pr : Option Char) (r : List Char),
      mLitCI lit ⟨pr, lit ++ r⟩ = [((), ⟨lastPrev pr lit, r⟩)] := by
  intro lit
  induction lit with
  | nil => intro _ pr r; rfl
  | cons l ls ih =>
    intro hall pr r
    have hl : l.toLower = l := hall l (by simp)
    simp only [mLitCI, List.cons_append]
    rw [if_pos hl]
    rw [ih (fun c hc => hall c (by simp [hc])) (some l) r]
    rw [lastPrev_cons]

lemma mRep_zero_stop {p : Char → Bool} : ∀ (max : Nat) (pr : Option Char) (l : List Char),
    (∀ d, l.head? = some d → p d = false) →
    mRepGreedy p 0 max ⟨pr, l⟩ = [([], ⟨pr, l⟩)] := by
  intro max pr l h
  cases max with
  | zero => rfl
  | succ m =>
    cases l with
    | nil => rfl
    | cons d ds =>
      have hd := h d rfl
      simp only [mRepGreedy]
      rw [if_neg (by simp [hd])]
      simp

/-- `\s+` (or any `p+`) consumes a single character when the next one
fails the class. -/
lemma mPlus_one {p : Char → Bool} (pr : Option Char) (c : Char) (r : List Char)
    (hc : p c = true) (hr : ∀ d, r.head? = some d → p d = false) :
    mPlus p ⟨pr, c :: r⟩ = [([c], ⟨some c, r⟩)] := by
  unfold mPlus
  show mRepGreedy p 1 ((c :: r).length) ⟨pr, c :: r⟩ = _
  rw [List.length_cons]
  simp only [mRepGreedy]
  rw [if_pos hc]
  norm_num
  rw [mRep_zero_stop r.length (some c) r hr]
  rfl

/-- A greedy class repetition on input that is exactly an admissible block
produces the full block as its first candidate. -/
lemma mRep_full {p : Char → Bool} : ∀ (l : List Char) (min max : Nat) (pr : Option Char),
    l.all p = true → min ≤ l.length → l.length ≤ max →
    ∃ junk, mRepGreedy p min max ⟨pr, l⟩ = (l, ⟨lastPrev pr l, []⟩) :: junk := by
  intro l
  induction l with
  | nil =>
    intro min max pr _ hmin _
    have h0 : min = 0 := Nat.le_zero.mp hmin
    subst h0
    cases max with
    | zero => exact ⟨[], rfl⟩
    | succ m => exact ⟨[], rfl⟩
  | cons c cs ih =>
    intro min max pr hall hmin hmax
    cases max with
    | zero => exact absurd hmax (by simp)
    | succ m =>
      rw [List.all_cons, Bool.and_eq_true] at hall
      obtain ⟨hc, hcs⟩ := hall
      have hmin' : min - 1 ≤ cs.length := by
        simp only [List.length_cons] at hmin
        omega
      have hmax' : cs.length ≤ m := by
        simp only [List.length_cons] at hmax
        omega
      obtain ⟨junk', hrec⟩ := ih (min - 1) m (some c) hcs hmin' hmax'
      refine ⟨(junk'.map (fun q => (c :: q.1, q.2))) ++
        (if min = 0 then [([], ⟨pr, c :: cs⟩)] else []), ?_⟩
      simp only [mRepGreedy]
      rw [if_pos hc, hrec]
      simp only [List.map_cons]
      rw [lastPrev_cons]
      rfl

lemma mbind_nil {α β : Type} {m : M α} {f : α → M β} {st : St}
    (h : m st = []) : mbind m f st = [] := by
  simp [mbind, h]

lemma searchM_cons_eq {α : Type} (m : M α) (prev : Option Char) (c : Char) (cs : List Char) :
    searchM m prev (c :: cs) = match firstMatch m ⟨prev, c :: cs⟩ with
      | some a => some a
      | none => searchM m (some c) cs := rfl

/-- The natural-language forget pattern, placed exactly at an embedded
`forget my <key>` occurrence at the end of the input with a non-word (or
absent) character before it, matches and captures the key. -/
lemma fpat2_at_target (pr0 : Option Char) (hpr0 : isWordOpt pr0 = false)
    (k : List Char) (hk : k.all keyClass = true) (hk1 : 1 ≤ k.length)
    (hk32 : k.length ≤ 32)
    (hlast : ∀ c, k.getLast? = some c → wordClass c = true) :
    firstMatch fpat2core ⟨pr0, "forget my ".data ++ k⟩ = some k := by
  obtain ⟨kc, ks, hkcons⟩ : ∃ kc ks, k = kc :: ks := by
    cases k with
    | nil => simp at hk1
    | cons a b => exact ⟨a, b, rfl⟩
  have hkc_class : keyClass kc = true := by
    rw [hkcons, List.all_cons, Bool.and_eq_true] at hk
    exact hk.1
  have hkc_ws : wsClass kc = false := keyClass_not_ws hkc_class
  obtain ⟨lastc, hlastc⟩ : ∃ c, k.getLast? = some c := by
    rw [hkcons]
    exact ⟨_, List.getLast?_eq_getLast _ (by simp)⟩
  have hlastw : wordClass lastc = true := hlast lastc hlastc
  have e0 : mWb ⟨pr0, "forget my ".data ++ k⟩ = [((), ⟨pr0, "forget my ".data ++ k⟩)] := by
    apply mWb_single
    show (isWordOpt pr0 != isWordOpt (some 'f')) = true
    rw [hpr0]
    rfl
  have e1 : mLitCI "forget".data ⟨pr0, "forget my ".data ++ k⟩
      = [((), ⟨some 't', ' ' :: 'm' :: 'y' :: ' ' :: k⟩)] := by
    show mLitCI "forget".data ⟨pr0, "forget".data ++ (' ' :: 'm' :: 'y' :: ' ' :: k)⟩ = _
    rw [mLitCI_lit "forget".data (by decide) pr0 (' ' :: 'm' :: 'y' :: ' ' :: k)]
    rfl
  have e2 : mWb ⟨some 't', ' ' :: 'm' :: 'y' :: ' ' :: k⟩
      = [((), ⟨some 't', ' ' :: 'm' :: 'y' :: ' ' :: k⟩)] := by
    apply mWb_single
    rfl
  have e3 : mPlus wsClass ⟨some 't', ' ' :: ('m' :: 'y' :: ' ' :: k)⟩
      = [([' '], ⟨some ' ', 'm' :: 'y' :: ' ' :: k⟩)] := by
    apply mPlus_one
    · decide
    · intro d hd
      simp only [List.head?_cons, Option.some.injEq] at hd
      subst hd
      decide
  have e4 : mLitCI "my".data ⟨some ' ', 'm' :: 'y' :: ' ' :: k⟩
      = [((), ⟨some 'y', ' ' :: k⟩)] := by
    show mLitCI "my".data ⟨some ' ', "my".data ++ (' ' :: k)⟩ = _
    rw [mLitCI_lit "my".data (by decide) (some ' ') (' ' :: k)]
    rfl
  have e5 : mPlus wsClass ⟨some 'y', ' ' :: k⟩ = [([' '], ⟨some ' ', k⟩)] := by
    apply mPlus_one
    · decide
    · intro d hd
      rw [hkcons] at hd
      simp only [List.head?_cons, Option.some.injEq] at hd
      subst hd
      exact hkc_ws
  obtain ⟨junk, e6⟩ := mRep_full k 1 32 (some ' ') hk hk1 hk32
  have hlastp : lastPrev (some ' ') k = some lastc := by
    unfold lastPrev
    rw [hlastc]
  rw [hlastp] at e6
  have e7 : mWb ⟨some lastc, []⟩ = [((), ⟨some lastc, []⟩)] := by
    apply mWb_single
    show (isWordOpt (some lastc) != isWordOpt none) = true
    show (wordClass lastc != false) = true
    rw [hlastw]
    rfl
  have hlist : ∃ tail, fpat2core ⟨pr0, "forget my ".data ++ k⟩
      = (k, ⟨some lastc, []⟩) :: tail := by
    refine ⟨junk.flatMap (fun p => (mbind mWb (fun _ => mret p.1)) p.2), ?_⟩
    unfold fpat2core
    rw [mbind_single e0]
    try simp only []
    rw [mbind_single e1]
    try simp only []
    rw [mbind_single e2]
    try simp only []
    rw [mbind_single e3]
    try simp only []
    rw [mbind_single e4]
    try simp only []
    rw [mbind_single e5]
    try simp only []
    rw [mbind_cons e6]
    try simp only []
    rw [mbind_single e7]
    simp only [mret]
    rfl
  obtain ⟨tail, hlist⟩ := hlist
  unfold firstMatch
  rw [hlist]
  rfl

/-- If the prefix contains no case-insensitive `forget` and ends in
whitespace, the forget pattern fails at every position strictly inside
the prefix. -/
lemma fpat2_fail_inside {t1 k : List Char}
    (hnf : containsL (lowerL t1) "forget".data = false)
    (hlastws : ∀ c, t1.getLast? = some c → wsClass c = true) :
    ∀ (pr' : Option Char) (s₂ : List Char), s₂ ≠ [] → s₂ <:+ t1 →
      fpat2core ⟨pr', s₂ ++ ("forget my ".data ++ k)⟩ = [] := by
  intro pr' s₂ hne hsuf
  by_contra hx
  have htake : lowerL ((s₂ ++ ("forget my ".data ++ k)).take 6) = "forget".data :=
    fpat2_ne_implies_take hx
  by_cases hlen : 6 ≤ s₂.length
  · rw [List.take_append_of_le_length hlen] at htake
    have hinfix : s₂.take 6 <:+: t1 :=
      (List.take_prefix 6 s₂).isInfix.trans hsuf.isInfix
    have hinfix2 : lowerL (s₂.take 6) <:+: lowerL t1 := hinfix.map Char.toLower
    rw [htake] at hinfix2
    rw [← containsL_iff] at hinfix2
    rw [hnf] at hinfix2
    exact absurd hinfix2 (by simp)
  · push_neg at hlen
    have hlast2 : ∃ c, s₂.getLast? = some c ∧ wsClass c = true := by
      obtain ⟨pre, hpre⟩ := hsuf
      have hgl : s₂.getLast? = t1.getLast? := by
        rw [← hpre, List.getLast?_append_of_ne_nil _ hne]
      obtain ⟨c, hc⟩ : ∃ c, s₂.getLast? = some c :=
        ⟨_, List.getLast?_eq_getLast _ hne⟩
      exact ⟨c, hc, hlastws c (by rw [← hgl]; exact hc)⟩
    obtain ⟨c, hc, hcw⟩ := hlast2
    have hcm : c ∈ s₂ := by
      have hne2 : s₂ ≠ [] := hne
      have := List.getLast?_eq_getLast s₂ hne2
      rw [this] at hc
      simp only [Option.some.injEq] at hc
      rw [← hc]
      exact List.getLast_mem hne2
    have hmem : c ∈ (s₂ ++ ("forget my ".data ++ k)).take 6 := by
      rw [List.take_append_eq_append_take]
      apply List.mem_append_left
      rw [List.take_of_length_le (le_of_lt hlen)]
      exact hcm
    have hmem2 : c.toLower ∈ lowerL ((s₂ ++ ("forget my ".data ++ k)).take 6) :=
      List.mem_map_of_mem _ hmem
    rw [htake] at hmem2
    have hws2 : wsClass c.toLower = true := by
      rw [ws_toLower hcw]
      exact hcw
    have hall : ∀ x ∈ "forget".data, wsClass x = false := by decide
    rw [hall _ hmem2] at hws2
    exact absurd hws2 (by simp)

/-- For a list whose last element is not whitespace, stripping only
removes from the front. -/
lemma pstrip_eq_dropWhile_of_last {l : List Char}
    (h : ∀ c, l.getLast? = some c → wsClass c = false) :
    pstrip l = l.dropWhile wsClass := by
  unfold pstrip
  by_cases hne : l.dropWhile wsClass = []
  · rw [hne]
    simp
  · have hlast_eq : (l.dropWhile wsClass).getLast? = l.getLast? := by
      obtain ⟨pre, hpre⟩ := List.dropWhile_suffix (l := l) wsClass
      conv_rhs => rw [← hpre]
      rw [List.getLast?_append_of_ne_nil _ hne]
    have hhead : ∀ x, (l.dropWhile wsClass).reverse.head? = some x → wsClass x = false := by
      intro x hx
      rw [List.head?_reverse, hlast_eq] at hx
      exact h x hx
    rw [dropWhile_eq_self_of_head hhead, List.reverse_reverse]

/-- C9 counterexample: `"aforget my name"` contains `"forget my name"` as
an internal substring, yet neither classifier yields any intent — the
`\b` before `forget` has no word boundary inside `aforget`. -/
theorem c9_counterexample :
    containsL "aforget my name".data "forget my name".data = true ∧
    wants_forget "aforget my name" = none ∧
    extract_remember_intent "aforget my name" = none := by
  refine ⟨by decide, by decide, by decide⟩

/-- C9 as amended: the natural-language patterns do match anywhere inside
the text, not only at its start, provided the embedded occurrence starts
at a word boundary: for every prefix with no other (case-insensitive)
`forget`, ending in whitespace (or empty), and not beginning — after
leading whitespace — with `/`, followed by `forget my <key>` with a
1–32-character `[A-Za-z0-9_-]` key ending in a word character, the
classifier yields the forget intent for that lowercased key; and a
`remember … my <key> is <value>` phrase embedded mid-sentence yields the
remember intent.  An occurrence embedded inside a longer word (as in the
counterexample `"aforget my name"`) yields no intent. -/
theorem c9_amended_unanchored :
    (∀ (t1 k : List Char),
      containsL (lowerL t1) "forget".data = false →
      (∀ c, t1.getLast? = some c → wsClass c = true) →
      (∀ c, (t1.dropWhile wsClass).head? = some c → c.toLower ≠ '/') →
      k.all keyClass = true → 1 ≤ k.length → k.length ≤ 32 →
      (∀ c, k.getLast? = some c → wordClass c = true) →
      wants_forget (String.mk (t1 ++ ("forget my ".data ++ k)))
        = some (String.mk (lowerL k))) ∧
    extract_remember_intent "ok remember that my color is blue" = some ("color", "blue") := by
  constructor
  · intro t1 k hnf hlastws hslash hk hk1 hk32 hkword
    obtain ⟨lastc, hlastc⟩ : ∃ c, k.getLast? = some c := by
      cases k with
      | nil => simp at hk1
      | cons a b => exact ⟨_, List.getLast?_eq_getLast _ (by simp)⟩
    have hkne : k ≠ [] := by
      cases k with
      | nil => simp at hk1
      | cons a b => simp
    have hTlast : (t1 ++ ("forget my ".data ++ k)).getLast? = some lastc := by
      rw [List.getLast?_append_of_ne_nil _ (by simp [hkne])]
      rw [List.getLast?_append_of_ne_nil _ hkne]
      exact hlastc
    have hTlast_ws : ∀ c, (t1 ++ ("forget my ".data ++ k)).getLast? = some c →
        wsClass c = false := by
      intro c hc
      rw [hTlast] at hc
      have hceq : lastc = c := by simpa using hc
      subst hceq
      by_contra hws
      have hws' : wsClass lastc = true := by simpa using hws
      have hnw := ws_not_word hws'
      rw [hkword lastc hlastc] at hnw
      exact absurd hnw (by simp)
    have hsne : String.mk (t1 ++ ("forget my ".data ++ k)) ≠ "" := by
      intro h
      have h2 := congrArg String.data h
      simp only at h2
      have h3 := congrArg List.length h2
      simp at h3
    have hpstrip : pstrip (t1 ++ ("forget my ".data ++ k))
        = (t1 ++ ("forget my ".data ++ k)).dropWhile wsClass :=
      pstrip_eq_dropWhile_of_last hTlast_ws
    have hcmd : firstMatch fpat1
        ⟨none, pstrip (t1 ++ ("forget my ".data ++ k))⟩ = none := by
      rw [hpstrip, List.dropWhile_append]
      by_cases hempty : (t1.dropWhile wsClass).isEmpty
      · rw [if_pos hempty]
        have hdw : List.dropWhile wsClass ("forget my ".data ++ k)
            = "forget my ".data ++ k := by
          show List.dropWhile wsClass ('f' :: ("orget my ".data ++ k)) = _
          rw [List.dropWhile_cons, if_neg (by decide)]
          rfl
        rw [hdw]
        have hnil : mLitCI "/forget".data ⟨none, 'f' :: ("orget my ".data ++ k)⟩ = [] := by
          simp only [mLitCI]
          rw [if_neg (by decide)]
        have : fpat1 ⟨none, "forget my ".data ++ k⟩ = [] := by
          unfold fpat1
          exact mbind_nil hnil
        unfold firstMatch
        rw [this]
        rfl
      · rw [if_neg hempty]
        obtain ⟨c0, r0, hc0⟩ : ∃ c0 r0, t1.dropWhile wsClass = c0 :: r0 := by
          cases hdw : t1.dropWhile wsClass with
          | nil => rw [hdw] at hempty; simp at hempty
          | cons a b => exact ⟨a, b, rfl⟩
        rw [hc0]
        have hc0s : c0.toLower ≠ '/' := hslash c0 (by rw [hc0]; rfl)
        have hnil : mLitCI "/forget".data
            ⟨none, c0 :: (r0 ++ ("forget my ".data ++ k))⟩ = [] := by
          simp only [mLitCI]
          rw [if_neg hc0s]
        have : fpat1 ⟨none, (c0 :: r0) ++ ("forget my ".data ++ k)⟩ = [] := by
          unfold fpat1
          exact mbind_nil hnil
        unfold firstMatch
        rw [this]
        rfl
    have hpr0 : isWordOpt (lastPrev none t1) = false := by
      unfold lastPrev
      cases hgl : t1.getLast? with
      | none => rfl
      | some c =>
        show wordClass c = false
        exact ws_not_word (hlastws c hgl)
    have hskip := searchM_skip fpat2core ("forget my ".data ++ k) t1 none
      (fpat2_fail_inside hnf hlastws)
    have htarget : firstMatch fpat2core
        ⟨lastPrev none t1, "forget my ".data ++ k⟩ = some k :=
      fpat2_at_target (lastPrev none t1) hpr0 k hk hk1 hk32 hkword
    have hsearch : searchM fpat2core none (t1 ++ ("forget my ".data ++ k)) = some k := by
      rw [hskip]
      have hcons : ("forget my ".data ++ k) = 'f' :: ("orget my ".data ++ k) := rfl
      have htarget' : firstMatch fpat2core
          ⟨lastPrev none t1, 'f' :: ("orget my ".data ++ k)⟩ = some k := htarget
      rw [hcons, searchM_cons_eq, htarget']
    unfold wants_forget
    rw [if_neg hsne]
    have hcmd' : firstMatch fpat1
        ⟨none, pstrip (String.mk (t1 ++ ("forget my ".data ++ k))).data⟩ = none := hcmd
    rw [hcmd']
    have hsearch' : searchM fpat2core none
        (String.mk (t1 ++ ("forget my ".data ++ k))).data = some k := hsearch
    rw [hsearch']
  · decide

/-- C9 amended witness: the prefix `"dont "` with key `"Name"` gives
`wants_forget "dont forget my Name" = some "name"`. -/
theorem c9_amended_unanchored_witness :
    wants_forget (String.mk ("dont ".data ++ ("forget my ".data ++ "Name".data)))
      = some (String.mk (lowerL "Name".data)) ∧
    String.mk ("dont ".data ++ ("forget my ".data ++ "Name".data)) = "dont forget my Name" ∧
    String.mk (lowerL "Name".data) = "name" := by
  refine ⟨?_, by decide, by decide⟩
  exact c9_amended_unanchored.1 "dont ".data "Name".data (by decide)
    (by decide) (by decide) (by decide) (by decide) (by decide) (by decide)

end MadaraBot
